import Mathlib

/-!
Verification of the SusBot impostor-game core: the pure session-state and
tally logic (`GameState.ts`) and the orchestrator (`GameManager`), embedded
shallowly.  JavaScript `Map` objects are modelled as association lists in
key-insertion order, since `Map` iteration order (insertion order) is what
the plurality tie-break depends on.  `setTimeout` timers are modelled by a
pending-timeout list with fresh numeric ids and a labelled step relation.
-/

namespace SusBot

/-! ## Association-list model of a JavaScript `Map`

A JS `Map` preserves key insertion order; `set` on an existing key updates
the value in place (the key keeps its position), `set` on a fresh key
appends.  `values()`/`entries()` iterate in that order. -/

/-- Association list in key-insertion order, modelling a JS `Map`. -/
abbrev JMap (K V : Type) := List (K × V)

/-- Model of `Map.prototype.get`. -/
def jget {K V : Type} [DecidableEq K] (m : JMap K V) (k : K) : Option V :=
  (m.find? (fun p => p.1 = k)).map Prod.snd

/-- Model of `Map.prototype.has`. -/
def jhas {K V : Type} [DecidableEq K] (m : JMap K V) (k : K) : Bool :=
  (jget m k).isSome

/-- Model of `Map.prototype.set`: update in place, else append. -/
def jset {K V : Type} [DecidableEq K] (m : JMap K V) (k : K) (v : V) : JMap K V :=
  match m with
  | [] => [(k, v)]
  | (k', v') :: rest => if k' = k then (k, v) :: rest else (k', v') :: jset rest k v

/-- Model of `Map.prototype.values()` (insertion order). -/
def jvalues {K V : Type} (m : JMap K V) : List V := m.map Prod.snd

/-- Model of `Map.prototype.size`. -/
def jsize {K V : Type} (m : JMap K V) : Nat := m.length

/-- Keys of the map in insertion order. -/
def jkeys {K V : Type} (m : JMap K V) : List K := m.map Prod.fst

theorem jget_jset_self {K V : Type} [DecidableEq K] (m : JMap K V) (k : K) (v : V) :
    jget (jset m k v) k = some v := by
  induction m with
  | nil => simp [jget, jset, List.find?]
  | cons p rest ih =>
    obtain ⟨k', v'⟩ := p
    by_cases h : k' = k
    · simp [jset, h, jget, List.find?]
    · simp only [jset, if_neg h]
      simpa [jget, List.find?_cons, h] using ih

theorem jget_jset_ne {K V : Type} [DecidableEq K] (m : JMap K V) (k k' : K) (v : V)
    (h : k' ≠ k) : jget (jset m k v) k' = jget m k' := by
  induction m with
  | nil => simp [jget, jset, List.find?, fun hh => h (Eq.symm hh), Ne.symm h]
  | cons p rest ih =>
    obtain ⟨k₀, v₀⟩ := p
    by_cases h₀ : k₀ = k
    · subst h₀
      simp [jset, jget, List.find?_cons, Ne.symm h]
    · simp only [jset, if_neg h₀]
      by_cases h₁ : k₀ = k'
      · subst h₁
        simp [jget, List.find?_cons]
      · simpa [jget, List.find?_cons, h₁] using ih

theorem jkeys_jset {K V : Type} [DecidableEq K] (m : JMap K V) (k : K) (v : V) :
    jkeys (jset m k v) = if (jget m k).isSome then jkeys m else jkeys m ++ [k] := by
  induction m with
  | nil => simp [jkeys, jset, jget, List.find?]
  | cons p rest ih =>
    obtain ⟨k₀, v₀⟩ := p
    by_cases h₀ : k₀ = k
    · subst h₀
      simp [jset, jkeys, jget, List.find?_cons]
    · have hget : jget ((k₀, v₀) :: rest) k = jget rest k := by
        simp [jget, List.find?_cons, h₀]
      simp only [jset, if_neg h₀, jkeys, List.map_cons, hget]
      simp only [jkeys] at ih
      by_cases hs : (jget rest k).isSome
      · simp [hs] at ih ⊢
        exact ih
      · simp [hs] at ih ⊢
        exact ih

theorem mem_of_jget_eq_some {K V : Type} [DecidableEq K] (m : JMap K V) (k : K) (v : V)
    (h : jget m k = some v) : (k, v) ∈ m := by
  unfold jget at h
  obtain ⟨p, hp, hv⟩ := Option.map_eq_some'.mp h
  have hmem := List.mem_of_find?_eq_some hp
  have hprop := List.find?_some hp
  have hk : p.1 = k := by simpa using hprop
  obtain ⟨pk, pv⟩ := p
  simp at hk hv
  subst hk; subst hv
  exact hmem

theorem jget_isSome_iff_mem_jkeys {K V : Type} [DecidableEq K] (m : JMap K V) (k : K) :
    (jget m k).isSome ↔ k ∈ jkeys m := by
  simp only [jget, Option.isSome_map', List.find?_isSome, jkeys, List.mem_map]
  constructor
  · rintro ⟨p, hp, hk⟩
    exact ⟨p, hp, by simpa using hk⟩
  · rintro ⟨p, hp, hk⟩
    exact ⟨p, hp, by simpa using hk⟩

theorem jget_of_mem_nodupkeys {K V : Type} [DecidableEq K] (m : JMap K V) (k : K) (v : V)
    (hnd : (jkeys m).Nodup) (hmem : (k, v) ∈ m) : jget m k = some v := by
  induction m with
  | nil => cases hmem
  | cons p rest ih =>
    obtain ⟨k₀, v₀⟩ := p
    simp only [jkeys, List.map_cons, List.nodup_cons] at hnd
    rcases List.mem_cons.mp hmem with h | h
    · injection h with h1 h2
      subst h1
      subst h2
      simp [jget, List.find?_cons]
    · have hk₀ : k₀ ≠ k := by
        intro he
        exact hnd.1 (List.mem_map.mpr ⟨(k, v), h, he.symm⟩)
      have hskip : jget ((k₀, v₀) :: rest) k = jget rest k := by
        simp [jget, List.find?_cons, hk₀]
      rw [hskip]
      exact ih hnd.2 h

/-! ## Occurrence counting and first-occurrence index, used to state the
plurality tie-break law. -/

/-- Number of occurrences of `a` in `l`. -/
def countOcc {α : Type} [DecidableEq α] (l : List α) (a : α) : Nat :=
  l.countP (fun b => b = a)

/-- Index of the first occurrence of `a` in `l` (length of `l` if absent). -/
def firstIdx {α : Type} [DecidableEq α] (l : List α) (a : α) : Nat :=
  l.findIdx (fun b => b = a)

theorem countOcc_cons {α : Type} [DecidableEq α] (b : α) (l : List α) (a : α) :
    countOcc (b :: l) a = countOcc l a + if b = a then 1 else 0 := by
  simp [countOcc, List.countP_cons]

theorem countOcc_pos_iff {α : Type} [DecidableEq α] (l : List α) (a : α) :
    0 < countOcc l a ↔ a ∈ l := by
  simp [countOcc, List.countP_pos_iff]

theorem countOcc_eq_zero_of_not_mem {α : Type} [DecidableEq α] {l : List α} {a : α}
    (h : a ∉ l) : countOcc l a = 0 := by
  simp only [countOcc, List.countP_eq_zero, decide_eq_true_eq]
  intro b hb he
  exact h (he ▸ hb)

theorem firstIdx_cons_self {α : Type} [DecidableEq α] (l : List α) (a : α) :
    firstIdx (a :: l) a = 0 := by
  simp [firstIdx, List.findIdx_cons]

theorem firstIdx_cons_ne {α : Type} [DecidableEq α] (l : List α) (a b : α) (h : b ≠ a) :
    firstIdx (b :: l) a = firstIdx l a + 1 := by
  simp [firstIdx, List.findIdx_cons, h]

/-! ## Tally primitives, embedded from `calculateWinningDuration` /
`calculateVoteResults` in `GameState.ts`.

The source builds a `Map` of counts by iterating the votes in order
(`counts.set(x, (counts.get(x) || 0) + 1)`) and then scans
`counts.entries()` (insertion order) keeping the first entry whose count
strictly exceeds the running maximum. -/

/-- One iteration of the counting loop: `counts.set(k, (counts.get(k) || 0) + 1)`. -/
def bumpCount {K : Type} [DecidableEq K] (counts : JMap K Nat) (k : K) : JMap K Nat :=
  jset counts k ((jget counts k).getD 0 + 1)

/-- The counting loop over the full vote list. -/
def buildCounts {K : Type} [DecidableEq K] (ks : List K) : JMap K Nat :=
  ks.foldl bumpCount []

/-- One iteration of the selection loop: `if (count > maxCount) { ... }`. -/
def selStep {K : Type} (acc : Nat × Option K) (p : K × Nat) : Nat × Option K :=
  if p.2 > acc.1 then (p.2, some p.1) else acc

/-- The selection loop over `counts.entries()`, with `maxCount = 0` and
`winner = null` initially. -/
def selectMax {K : Type} (counts : JMap K Nat) : Nat × Option K :=
  counts.foldl selStep (0, none)

theorem jget_foldl_bumpCount {K : Type} [DecidableEq K] (l : List K) (m : JMap K Nat) (k : K) :
    jget (l.foldl bumpCount m) k =
      if k ∈ l then some ((jget m k).getD 0 + countOcc l k) else jget m k := by
  induction l generalizing m with
  | nil => simp
  | cons a t ih =>
    simp only [List.foldl_cons]
    rw [ih]
    by_cases hk : k = a
    · subst hk
      have hself : jget (bumpCount m k) k = some ((jget m k).getD 0 + 1) :=
        jget_jset_self m k _
      by_cases ht : k ∈ t
      · rw [if_pos ht, if_pos (List.mem_cons_self _ _), hself, countOcc_cons, if_pos rfl]
        simp
        omega
      · rw [if_neg ht, if_pos (List.mem_cons_self _ _), hself, countOcc_cons, if_pos rfl,
          countOcc_eq_zero_of_not_mem ht]
    · have hne : jget (bumpCount m a) k = jget m k :=
        jget_jset_ne m a k _ hk
      rw [hne]
      by_cases ht : k ∈ t
      · rw [if_pos ht, if_pos (List.mem_cons.mpr (Or.inr ht)), countOcc_cons,
          if_neg (fun h : a = k => hk h.symm), Nat.add_zero]
      · rw [if_neg ht,
          if_neg (fun hc => (List.mem_cons.mp hc).elim (fun h => hk h) ht)]

/-- Keys newly inserted by counting `l`, given the keys already `seen`:
first-occurrence order of the values of `l`. -/
def newKeys {α : Type} [DecidableEq α] (l : List α) (seen : List α) : List α :=
  match l with
  | [] => []
  | a :: t => if a ∈ seen then newKeys t seen else a :: newKeys t (a :: seen)

theorem newKeys_congr {α : Type} [DecidableEq α] (l : List α) (s₁ s₂ : List α)
    (h : ∀ x, x ∈ s₁ ↔ x ∈ s₂) : newKeys l s₁ = newKeys l s₂ := by
  induction l generalizing s₁ s₂ with
  | nil => rfl
  | cons a t ih =>
    simp only [newKeys]
    by_cases ha : a ∈ s₁
    · rw [if_pos ha, if_pos ((h a).mp ha)]
      exact ih s₁ s₂ h
    · rw [if_neg ha, if_neg (fun hc => ha ((h a).mpr hc))]
      refine congrArg _ (ih (a :: s₁) (a :: s₂) ?_)
      intro x
      simp only [List.mem_cons]
      exact or_congr Iff.rfl (h x)

theorem mem_newKeys {α : Type} [DecidableEq α] (l : List α) (seen : List α) (x : α) :
    x ∈ newKeys l seen ↔ x ∈ l ∧ x ∉ seen := by
  induction l generalizing seen with
  | nil => simp [newKeys]
  | cons a t ih =>
    simp only [newKeys]
    by_cases ha : a ∈ seen
    · rw [if_pos ha, ih]
      simp only [List.mem_cons]
      constructor
      · rintro ⟨hx, hs⟩
        exact ⟨Or.inr hx, hs⟩
      · rintro ⟨hx | hx, hs⟩
        · exact absurd (hx ▸ ha) hs
        · exact ⟨hx, hs⟩
    · rw [if_neg ha]
      simp only [List.mem_cons, ih, List.mem_cons]
      constructor
      · rintro (rfl | ⟨hx, hs⟩)
        · exact ⟨Or.inl rfl, ha⟩
        · exact ⟨Or.inr hx, fun hc => hs (Or.inr hc)⟩
      · rintro ⟨hx | hx, hs⟩
        · exact Or.inl hx
        · by_cases hxa : x = a
          · exact Or.inl hxa
          · exact Or.inr ⟨hx, by rintro (h | h); exact hxa h; exact hs h⟩

theorem jkeys_foldl_bumpCount {K : Type} [DecidableEq K] (l : List K) (m : JMap K Nat) :
    jkeys (l.foldl bumpCount m) = jkeys m ++ newKeys l (jkeys m) := by
  induction l generalizing m with
  | nil => simp [newKeys]
  | cons a t ih =>
    simp only [List.foldl_cons, newKeys]
    rw [ih]
    have hkb : jkeys (bumpCount m a) =
        if (jget m a).isSome then jkeys m else jkeys m ++ [a] :=
      jkeys_jset m a _
    by_cases ha : a ∈ jkeys m
    · rw [if_pos ha]
      rw [hkb, if_pos ((jget_isSome_iff_mem_jkeys m a).mpr ha)]
    · rw [if_neg ha]
      rw [hkb, if_neg (fun hc => ha ((jget_isSome_iff_mem_jkeys m a).mp hc))]
      rw [List.append_assoc, List.singleton_append]
      refine congrArg _ (congrArg _ (newKeys_congr t _ _ ?_))
      intro x
      simp only [List.mem_append, List.mem_cons, List.mem_singleton]
      tauto

theorem jkeys_buildCounts {K : Type} [DecidableEq K] (l : List K) :
    jkeys (buildCounts l) = newKeys l [] := by
  simpa [jkeys] using jkeys_foldl_bumpCount l []

theorem jget_buildCounts {K : Type} [DecidableEq K] (l : List K) (k : K) (h : k ∈ l) :
    jget (buildCounts l) k = some (countOcc l k) := by
  have := jget_foldl_bumpCount l [] k
  rw [if_pos h] at this
  simpa [jget, List.find?] using this

theorem mem_buildCounts_of_mem {K : Type} [DecidableEq K] (l : List K) (k : K) (h : k ∈ l) :
    (k, countOcc l k) ∈ buildCounts l :=
  mem_of_jget_eq_some _ _ _ (jget_buildCounts l k h)

theorem newKeys_nodup {α : Type} [DecidableEq α] (l : List α) (seen : List α) :
    (newKeys l seen).Nodup := by
  induction l generalizing seen with
  | nil => simp [newKeys]
  | cons a t ih =>
    simp only [newKeys]
    by_cases ha : a ∈ seen
    · rw [if_pos ha]; exact ih seen
    · rw [if_neg ha]
      refine List.nodup_cons.mpr ⟨?_, ih (a :: seen)⟩
      intro hc
      exact ((mem_newKeys t (a :: seen) a).mp hc).2 (List.mem_cons_self a seen)

theorem mem_buildCounts {K : Type} [DecidableEq K] (l : List K) (k : K) (c : Nat)
    (h : (k, c) ∈ buildCounts l) : k ∈ l ∧ c = countOcc l k := by
  have hkmem : k ∈ jkeys (buildCounts l) := List.mem_map.mpr ⟨(k, c), h, rfl⟩
  rw [jkeys_buildCounts] at hkmem
  have hkl : k ∈ l := ((mem_newKeys l [] k).mp hkmem).1
  have hnd : (jkeys (buildCounts l)).Nodup := by
    rw [jkeys_buildCounts]; exact newKeys_nodup l []
  have := jget_of_mem_nodupkeys _ _ _ hnd h
  rw [jget_buildCounts l k hkl] at this
  exact ⟨hkl, (Option.some.injEq .. ▸ this).symm⟩

/-- Running maximum of the counts stored in an association list. -/
def maxSnd {K : Type} (cs : List (K × Nat)) : Nat :=
  cs.foldl (fun a p => max a p.2) 0

theorem foldl_max_eq {K : Type} (cs : List (K × Nat)) (a : Nat) :
    cs.foldl (fun a p => max a p.2) a = max a (maxSnd cs) := by
  induction cs generalizing a with
  | nil => simp [maxSnd]
  | cons p t ih =>
    simp only [maxSnd, List.foldl_cons] at *
    rw [ih, ih (max 0 p.2), Nat.zero_max, Nat.max_assoc]

theorem maxSnd_cons {K : Type} (p : K × Nat) (cs : List (K × Nat)) :
    maxSnd (p :: cs) = max p.2 (maxSnd cs) := by
  show cs.foldl (fun a p => max a p.2) (max 0 p.2) = max p.2 (maxSnd cs)
  rw [foldl_max_eq, Nat.zero_max]

theorem le_maxSnd_of_mem {K : Type} {cs : List (K × Nat)} {p : K × Nat}
    (h : p ∈ cs) : p.2 ≤ maxSnd cs := by
  induction cs with
  | nil => cases h
  | cons q t ih =>
    rw [maxSnd_cons]
    rcases List.mem_cons.mp h with h | h
    · rw [h]; exact Nat.le_max_left _ _
    · exact Nat.le_trans (ih h) (Nat.le_max_right _ _)

theorem maxSnd_attained {K : Type} (cs : List (K × Nat)) (h : cs ≠ []) :
    ∃ p ∈ cs, p.2 = maxSnd cs := by
  induction cs with
  | nil => exact absurd rfl h
  | cons q t ih =>
    rw [maxSnd_cons]
    rcases List.eq_nil_or_concat' t with rfl | _
    · exact ⟨q, List.mem_cons_self _ _, by simp [maxSnd]⟩
    · by_cases hle : maxSnd t ≤ q.2
      · exact ⟨q, List.mem_cons_self _ _, (Nat.max_eq_left hle).symm⟩
      · have hne : t ≠ [] := by
          intro he
          rw [he] at hle
          exact hle (Nat.zero_le _)
        obtain ⟨p, hp, hpv⟩ := ih hne
        refine ⟨p, List.mem_cons_of_mem _ hp, ?_⟩
        rw [hpv, Nat.max_eq_right (Nat.le_of_not_le hle)]

theorem foldl_selStep_noop {K : Type} (cs : List (K × Nat)) (m : Nat) (r : Option K)
    (h : ∀ p ∈ cs, p.2 ≤ m) : cs.foldl selStep (m, r) = (m, r) := by
  induction cs with
  | nil => rfl
  | cons p t ih =>
    have hp : p.2 ≤ m := h p (List.mem_cons_self _ _)
    simp only [List.foldl_cons, selStep, gt_iff_lt]
    rw [if_neg (Nat.not_lt.mpr hp)]
    exact ih (fun q hq => h q (List.mem_cons_of_mem _ hq))

theorem foldl_selStep_char {K : Type} (cs : List (K × Nat)) (m : Nat) (r : Option K)
    (h : m < maxSnd cs) :
    cs.foldl selStep (m, r) =
      (maxSnd cs, (cs.find? (fun p => p.2 = maxSnd cs)).map Prod.fst) := by
  induction cs generalizing m r with
  | nil => exact absurd h (by simp [maxSnd])
  | cons p t ih =>
    rw [maxSnd_cons] at h ⊢
    simp only [List.foldl_cons, selStep, gt_iff_lt, List.find?_cons]
    by_cases hp : m < p.2
    · rw [if_pos hp]
      by_cases hmax : maxSnd t ≤ p.2
      · rw [Nat.max_eq_left hmax]
        have hpred : (decide (p.2 = p.2)) = true := by simp
        rw [hpred]
        simp only [Option.map_some']
        exact foldl_selStep_noop t p.2 (some p.1)
          (fun q hq => Nat.le_trans (le_maxSnd_of_mem hq) hmax)
      · have hlt : p.2 < maxSnd t := Nat.lt_of_not_le hmax
        rw [Nat.max_eq_right (Nat.le_of_lt hlt)]
        have hpred : (decide (p.2 = maxSnd t)) = false := by
          simp [Nat.ne_of_lt hlt]
        rw [hpred]
        exact ih p.2 (some p.1) hlt
    · rw [if_neg hp]
      have hp' : p.2 ≤ m := Nat.le_of_not_lt hp
      have hlt : m < maxSnd t := by
        rcases lt_max_iff.mp h with h' | h'
        · omega
        · exact h'
      rw [Nat.max_eq_right (by omega)]
      have hpred : (decide (p.2 = maxSnd t)) = false := by
        simp only [decide_eq_false_iff_not]
        omega
      rw [hpred]
      exact ih m r hlt

theorem find?_sorted_min {α : Type} [DecidableEq α] (cs : List (α × Nat)) (f : α → Nat)
    (M : Nat) (q : α × Nat)
    (hsorted : (cs.map Prod.fst).Pairwise (fun a b => f a < f b))
    (hq : cs.find? (fun p => p.2 = M) = some q)
    (b : α) (c : Nat) (hb : (b, c) ∈ cs) (hbc : c = M) : f q.1 ≤ f b := by
  induction cs with
  | nil => cases hb
  | cons p t ih =>
    simp only [List.map_cons, List.pairwise_cons] at hsorted
    by_cases hP : p.2 = M
    · have hq' : q = p := by
        rw [List.find?_cons, show (decide (p.2 = M)) = true by simp [hP]] at hq
        injection hq with h'
        exact h'.symm
      rcases List.mem_cons.mp hb with h | h
      · have hbp : b = p.1 := congrArg Prod.fst h
        rw [hq', hbp]
      · rw [hq']
        exact Nat.le_of_lt (hsorted.1 b (List.mem_map.mpr ⟨(b, c), h, rfl⟩))
    · have hq' : t.find? (fun p => p.2 = M) = some q := by
        rw [List.find?_cons, show (decide (p.2 = M)) = false by simp [hP]] at hq
        exact hq
      rcases List.mem_cons.mp hb with h | h
      · exact absurd (show p.2 = M by rw [← congrArg Prod.snd h]; exact hbc) hP
      · exact ih hsorted.2 hq' h

theorem pairwise_firstIdx_newKeys {α : Type} [DecidableEq α] (l : List α) (seen : List α) :
    (newKeys l seen).Pairwise (fun a b => firstIdx l a < firstIdx l b) := by
  induction l generalizing seen with
  | nil => simp [newKeys]
  | cons a t ih =>
    have lift : ∀ s : List α,
        (newKeys t s).Pairwise (fun x y => firstIdx (a :: t) x < firstIdx (a :: t) y) ∨
        a ∈ s →
        True := fun _ _ => trivial
    simp only [newKeys]
    by_cases ha : a ∈ seen
    · rw [if_pos ha]
      refine (ih seen).imp_of_mem ?_
      intro x y hx hy hlt
      have hxa : x ≠ a := fun he => ((mem_newKeys t seen x).mp hx).2 (he ▸ ha)
      have hya : y ≠ a := fun he => ((mem_newKeys t seen y).mp hy).2 (he ▸ ha)
      rw [firstIdx_cons_ne t x a (Ne.symm hxa), firstIdx_cons_ne t y a (Ne.symm hya)]
      omega
    · rw [if_neg ha]
      refine List.pairwise_cons.mpr ⟨?_, ?_⟩
      · intro b hb
        have hba : b ≠ a := fun he =>
          ((mem_newKeys t (a :: seen) b).mp hb).2 (he ▸ List.mem_cons_self a seen)
        rw [firstIdx_cons_self, firstIdx_cons_ne t b a (Ne.symm hba)]
        omega
      · refine (ih (a :: seen)).imp_of_mem ?_
        intro x y hx hy hlt
        have hxa : x ≠ a := fun he =>
          ((mem_newKeys t (a :: seen) x).mp hx).2 (he ▸ List.mem_cons_self a seen)
        have hya : y ≠ a := fun he =>
          ((mem_newKeys t (a :: seen) y).mp hy).2 (he ▸ List.mem_cons_self a seen)
        rw [firstIdx_cons_ne t x a (Ne.symm hxa), firstIdx_cons_ne t y a (Ne.symm hya)]
        omega

/-- Master characterization of the source's plurality selection: on a
non-empty vote list it returns the value with the strictly highest
occurrence count, ties broken in favour of the value whose first vote
arrived earliest (smallest first-occurrence index). -/
theorem selectMax_buildCounts_spec {α : Type} [DecidableEq α] (l : List α) (hne : l ≠ []) :
    ∃ k, selectMax (buildCounts l) = (countOcc l k, some k) ∧ k ∈ l ∧
      (∀ b ∈ l, countOcc l b ≤ countOcc l k) ∧
      (∀ b ∈ l, countOcc l b = countOcc l k → firstIdx l k ≤ firstIdx l b) := by
  obtain ⟨a, ha⟩ := List.exists_mem_of_ne_nil l hne
  have hane : (a, countOcc l a) ∈ buildCounts l := mem_buildCounts_of_mem l a ha
  have hcsne : buildCounts l ≠ [] := fun h => by rw [h] at hane; cases hane
  obtain ⟨p₀, hp₀mem, hp₀⟩ := maxSnd_attained (buildCounts l) hcsne
  obtain ⟨hp₀l, hp₀c⟩ := mem_buildCounts l p₀.1 p₀.2 (by exact hp₀mem)
  have hMpos : 0 < maxSnd (buildCounts l) := by
    rw [← hp₀, hp₀c]
    exact (countOcc_pos_iff l p₀.1).mpr hp₀l
  have hsel := foldl_selStep_char (buildCounts l) 0 none hMpos
  have hfind : ∃ q, (buildCounts l).find?
      (fun p => p.2 = maxSnd (buildCounts l)) = some q := by
    cases hf : (buildCounts l).find? (fun p => p.2 = maxSnd (buildCounts l)) with
    | none =>
      have := List.find?_eq_none.mp hf p₀ hp₀mem
      simp [hp₀] at this
    | some q => exact ⟨q, rfl⟩
  obtain ⟨q, hq⟩ := hfind
  have hqmem := List.mem_of_find?_eq_some hq
  have hqP : q.2 = maxSnd (buildCounts l) := by
    have := List.find?_some hq
    simpa using this
  obtain ⟨hql, hqc⟩ := mem_buildCounts l q.1 q.2 (by exact hqmem)
  have hqcM : countOcc l q.1 = maxSnd (buildCounts l) := by rw [← hqc]; exact hqP
  refine ⟨q.1, ?_, hql, ?_, ?_⟩
  · rw [selectMax, hsel, hq, Option.map_some', hqcM]
  · intro b hb
    have hbmem : (b, countOcc l b) ∈ buildCounts l := mem_buildCounts_of_mem l b hb
    have := le_maxSnd_of_mem hbmem
    rw [hqcM]
    exact this
  · intro b hb hbc
    have hbmem : (b, countOcc l b) ∈ buildCounts l := mem_buildCounts_of_mem l b hb
    have hsorted : ((buildCounts l).map Prod.fst).Pairwise
        (fun x y => firstIdx l x < firstIdx l y) := by
      have := pairwise_firstIdx_newKeys l []
      rw [← jkeys_buildCounts] at this
      exact this
    exact find?_sorted_min (buildCounts l) (firstIdx l) (maxSnd (buildCounts l)) q hsorted hq
      b (countOcc l b) hbmem (by rw [hbc, hqcM])

/-! ## Session data model, embedded from `GameState.ts` -/

/-- The `GameStatus` union type. -/
inductive GameStatus
  | idle
  | votingDuration
  | assigningRoles
  | discussion
  | voting
  | ended
deriving DecidableEq, Repr

/-- The `GameDuration` type: `5 | 7 | 10` minutes. -/
inductive GameDuration
  | m5
  | m7
  | m10
deriving DecidableEq, Repr

/-- Numeric value (in minutes) of a `GameDuration`. -/
def GameDuration.minutes : GameDuration → Nat
  | .m5 => 5
  | .m7 => 7
  | .m10 => 10

/-- Winner side of the game ( `'imposter' | 'group'` ). -/
inductive Winner
  | imposter
  | group
deriving DecidableEq, Repr

/-- The `Player` interface. -/
structure Player where
  inboxId : String
  address : String
  isImposter : Bool
  hasVoted : Bool
  votedFor : Option String
deriving DecidableEq, Repr

/-- The `DurationVote` interface. -/
structure DurationVote where
  voterInboxId : String
  duration : GameDuration
deriving DecidableEq, Repr

/-- The `GameState` interface.  `Date` timestamps are modelled as `Nat`
milliseconds; absent optional fields are `none`. -/
structure GameState where
  groupId : String
  status : GameStatus
  durationVotes : List DurationVote
  selectedDuration : Option GameDuration
  players : JMap String Player
  imposterInboxId : Option String
  secretWord : Option String
  startedAt : Option Nat
  discussionEndTime : Option Nat
  currentSpeakerInboxId : Option String
  votingStartedAt : Option Nat
  votes : JMap String String
  votedOutInboxId : Option String
  winner : Option Winner
deriving DecidableEq, Repr

/-- `createGameState`. -/
def createGameState (groupId : String) : GameState :=
  { groupId := groupId
    status := .idle
    durationVotes := []
    selectedDuration := none
    players := []
    imposterInboxId := none
    secretWord := none
    startedAt := none
    discussionEndTime := none
    currentSpeakerInboxId := none
    votingStartedAt := none
    votes := []
    votedOutInboxId := none
    winner := none }

/-- `isGameActive`. -/
def isGameActive (s : GameState) : Bool :=
  s.status ≠ .idle && s.status ≠ .ended

/-- `getPlayerCount`. -/
def getPlayerCount (s : GameState) : Nat := jsize s.players

/-- `getPlayer`. -/
def getPlayer (s : GameState) (inboxId : String) : Option Player :=
  jget s.players inboxId

/-- `addPlayer` (mutation modelled functionally). -/
def addPlayer (s : GameState) (inboxId address : String) : GameState :=
  if jhas s.players inboxId then s
  else
    let newPlayer : Player :=
      { inboxId := inboxId, address := address,
        isImposter := false, hasVoted := false, votedFor := none }
    { s with players := jset s.players inboxId newPlayer }

/-- `setImposter`: flag the player in place (the JS code mutates the
`Player` object stored in the map) and record `imposterInboxId`. -/
def setImposter (s : GameState) (inboxId : String) : GameState :=
  match jget s.players inboxId with
  | none => s
  | some p =>
      let flagged : Player := { p with isImposter := true }
      { s with players := jset s.players inboxId flagged,
               imposterInboxId := some inboxId }

/-- `recordDurationVote`: remove any existing vote from this voter, then
push the new vote at the end of the array. -/
def recordDurationVote (s : GameState) (voterInboxId : String) (duration : GameDuration) :
    GameState :=
  { s with durationVotes :=
      (s.durationVotes.filter (fun v => v.voterInboxId ≠ voterInboxId))
        ++ [{ voterInboxId := voterInboxId, duration := duration }] }

/-- `calculateWinningDuration`. -/
def calculateWinningDuration (s : GameState) : Option GameDuration :=
  if s.durationVotes.isEmpty then none
  else (selectMax (buildCounts (s.durationVotes.map DurationVote.duration))).2

/-- `recordVote`: store the accusation (last write wins) and update the
voter's `hasVoted` / `votedFor` fields when the voter is a player. -/
def recordVote (s : GameState) (voterInboxId voteeInboxId : String) : GameState :=
  let s₁ := { s with votes := jset s.votes voterInboxId voteeInboxId }
  match jget s₁.players voterInboxId with
  | none => s₁
  | some voter =>
      let voted : Player := { voter with hasVoted := true, votedFor := some voteeInboxId }
      { s₁ with players := jset s₁.players voterInboxId voted }

/-- `calculateVoteResults`.  The final `if (!votedOutInboxId) return null`
is a JavaScript falsiness test: it rejects both `null` and the empty
string. -/
def calculateVoteResults (s : GameState) : Option (String × Nat) :=
  if s.votes.isEmpty then none
  else
    let r := selectMax (buildCounts (jvalues s.votes))
    match r.2 with
    | none => none
    | some votedOutInboxId =>
        if votedOutInboxId = "" then none else some (votedOutInboxId, r.1)

/-- `determineWinner`. -/
def determineWinner (s : GameState) (votedOutInboxId : String) : Winner :=
  if s.imposterInboxId = some votedOutInboxId then .group else .imposter

/-- `resetGameState` (mutation modelled functionally; `groupId` is kept). -/
def resetGameState (s : GameState) : GameState :=
  { s with status := .idle
           durationVotes := []
           selectedDuration := none
           players := []
           imposterInboxId := none
           secretWord := none
           startedAt := none
           discussionEndTime := none
           currentSpeakerInboxId := none
           votingStartedAt := none
           votes := []
           votedOutInboxId := none
           winner := none }

/-! ## Orchestrator, embedded from `GameManager`

The manager is modelled for a single group (sessions of distinct groups
are independent).  Outbound messages become a list of `Report` values.
`setTimeout` handles get fresh numeric ids; the ids armed through
`this.timers` (one cancelable deadline per group, re-armed by `setTimer`)
are distinguished from raw `setTimeout` calls (`schedule`), which the
source never stores in `this.timers`. -/

/-- The callback passed to a `setTimeout` in the source. -/
inductive Callback
  | finalizeDurationVote
  | endDiscussion
  | finalizeVoting
  | selectSpeaker
  | resetAfterEnd
deriving DecidableEq, Repr

/-- An armed, not-yet-fired timeout. -/
structure Timeout where
  id : Nat
  callback : Callback
  delay : Nat
deriving DecidableEq, Repr

/-- Outbound messages sent through the messaging collaborator. -/
inductive Report
  | alreadyInProgress
  | notEnoughPlayers
  | gameStarting
  | durationPoll
  | noDurationVotes
  | durationSelected (d : GameDuration)
  | notEnoughPlayersRoles
  | imposterDM (player : String)
  | wordDM (player : String) (word : String)
  | dmFailure
  | rolesAssigned (succeeded : Nat) (total : Nat)
  | speakerAnnounce (speaker : String)
  | timeUp
  | votingPoll
  | noVotesDraw
  | voteError
  | results (votedOut : String) (voteCount : Nat) (imposterId : Option String)
      (secretWord : Option String) (winner : Winner) (breakdown : List (String × String))
  | gameCancelled
  | noActiveGame
deriving DecidableEq, Repr

/-- Ambient inputs the orchestrator obtains from collaborators or from
`Math.random()`: the group membership snapshot (inbox id, address), the
bot's own inbox id, the random indices, the random secret word, and
which private DMs succeed. -/
structure Env where
  members : List (String × String)
  botInboxId : String
  imposterIndex : Nat
  word : String
  dmOk : String → Bool
  speakerIndex : Nat

/-- Orchestrator state for one group: the session, the `this.timers`
entry for the group, all armed timeouts, and the fresh-id counter. -/
structure ManagerState where
  game : GameState
  timersEntry : Option Nat
  pending : List Timeout
  nextId : Nat
deriving DecidableEq, Repr

/-- A fresh manager for a group, as `getGameState` creates it. -/
def initialManager (groupId : String) : ManagerState :=
  { game := createGameState groupId, timersEntry := none, pending := [], nextId := 0 }

/-- `setTimer`: clear the existing `this.timers` entry (if any), then arm
a fresh timeout and store its handle. -/
def setTimer (s : ManagerState) (cb : Callback) (delay : Nat) : ManagerState :=
  let pending :=
    match s.timersEntry with
    | some t => s.pending.filter (fun x => x.id ≠ t)
    | none => s.pending
  { s with pending := pending ++ [{ id := s.nextId, callback := cb, delay := delay }]
           timersEntry := some s.nextId
           nextId := s.nextId + 1 }

/-- `clearTimer`: cancel the `this.timers` entry and forget the handle. -/
def clearTimer (s : ManagerState) : ManagerState :=
  match s.timersEntry with
  | some t =>
      { s with pending := s.pending.filter (fun x => x.id ≠ t), timersEntry := none }
  | none => s

/-- A raw `setTimeout` that is not stored in `this.timers` (the 2-second
speaker delay and the 5-second reset delay in the source). -/
def schedule (s : ManagerState) (cb : Callback) (delay : Nat) : ManagerState :=
  { s with pending := s.pending ++ [{ id := s.nextId, callback := cb, delay := delay }]
           nextId := s.nextId + 1 }

/-- `getGameStatus`: read-only snapshot of the session. -/
def getGameStatus (s : ManagerState) : GameState := s.game

/-- `startGame`. -/
def startGame (env : Env) (s : ManagerState) : ManagerState × List Report :=
  if isGameActive s.game then (s, [.alreadyInProgress])
  else if env.members.length < 3 then (s, [.notEnoughPlayers])
  else
    let g := { resetGameState s.game with status := .votingDuration }
    let s₁ := setTimer { s with game := g } .finalizeDurationVote 60000
    (s₁, [.gameStarting, .durationPoll])

/-- `handleDurationVote`. -/
def handleDurationVote (s : ManagerState) (voterInboxId : String) (d : GameDuration) :
    ManagerState :=
  if s.game.status ≠ .votingDuration then s
  else { s with game := recordDurationVote s.game voterInboxId d }

/-- `handlePlayerVote`. -/
def handlePlayerVote (s : ManagerState) (voterInboxId voteeInboxId : String) :
    ManagerState :=
  if s.game.status ≠ .voting then s
  else { s with game := recordVote s.game voterInboxId voteeInboxId }

/-- The member-registration fold of `assignRoles`. -/
def addMembers (bot : String) (ms : List (String × String)) (g : GameState) : GameState :=
  ms.foldl (fun g m => if m.1 ≠ bot then addPlayer g m.1 m.2 else g) g

/-- `assignRoles`: set the phase, snapshot membership minus the bot,
abort when fewer than 3 players remain, otherwise populate `players`,
pick the impostor and secret word, DM every player (failures tolerated,
counted), abort when no DM succeeded, else announce and schedule the
speaker selection 2 seconds later. -/
def assignRoles (env : Env) (s : ManagerState) : ManagerState × List Report :=
  let g₀ := { s.game with status := .assigningRoles }
  let playerIds := (env.members.map Prod.fst).filter (fun i => i ≠ env.botInboxId)
  if playerIds.length < 3 then
    ({ s with game := resetGameState g₀ }, [.notEnoughPlayersRoles])
  else
    let g₁ := addMembers env.botInboxId env.members g₀
    let g₂ :=
      match playerIds.get? (env.imposterIndex % playerIds.length) with
      | some imposterInboxId => setImposter g₁ imposterInboxId
      | none => g₁
    let g₃ := { g₂ with secretWord := some env.word }
    let playerList := jvalues g₃.players
    let dmReports := playerList.filterMap (fun p =>
      if env.dmOk p.inboxId then
        some (if p.isImposter then Report.imposterDM p.inboxId
              else Report.wordDM p.inboxId env.word)
      else none)
    let dmSuccessCount := (playerList.filter (fun p => env.dmOk p.inboxId)).length
    if dmSuccessCount = 0 then
      ({ s with game := resetGameState g₃ }, dmReports ++ [.dmFailure])
    else
      let s₁ := schedule { s with game := g₃ } .selectSpeaker 2000
      (s₁, dmReports ++ [.rolesAssigned dmSuccessCount playerIds.length])

/-- `finalizeDurationVote` (deadline callback of the duration poll). -/
def finalizeDurationVote (env : Env) (s : ManagerState) : ManagerState × List Report :=
  if s.game.status ≠ .votingDuration then (s, [])
  else
    match calculateWinningDuration s.game with
    | none => ({ s with game := resetGameState s.game }, [.noDurationVotes])
    | some w =>
        let s₁ := { s with game := { s.game with selectedDuration := some w } }
        let r := assignRoles env s₁
        (r.1, .durationSelected w :: r.2)

/-- `startDiscussionPhase`: set the discussion deadline from the selected
duration (default 5 minutes) and arm the deadline timer. -/
def startDiscussionPhase (now : Nat) (s : ManagerState) : ManagerState :=
  let durationMs := ((s.game.selectedDuration.map GameDuration.minutes).getD 5) * 60 * 1000
  let g := { s.game with status := .discussion
                         startedAt := some now
                         discussionEndTime := some (now + durationMs) }
  setTimer { s with game := g } .endDiscussion durationMs

/-- `selectRandomSpeaker` (the 2-second `setTimeout` callback).  With an
empty player map the source would throw; that situation is unreachable in
the game flow and is modelled as a no-op. -/
def selectRandomSpeaker (env : Env) (now : Nat) (s : ManagerState) :
    ManagerState × List Report :=
  let playerArray := jvalues s.game.players
  match playerArray.get? (env.speakerIndex % playerArray.length) with
  | none => (s, [])
  | some speaker =>
      let s₁ := { s with game :=
        { s.game with currentSpeakerInboxId := some speaker.inboxId } }
      (startDiscussionPhase now s₁, [.speakerAnnounce speaker.inboxId])

/-- `startVotingPhase`: enter voting, publish the accusation poll, arm a
60-second deadline. -/
def startVotingPhase (now : Nat) (s : ManagerState) : ManagerState × List Report :=
  let g := { s.game with status := .voting, votingStartedAt := some now }
  (setTimer { s with game := g } .finalizeVoting 60000, [.votingPoll])

/-- `endDiscussionPhase` (discussion deadline callback). -/
def endDiscussionPhase (now : Nat) (s : ManagerState) : ManagerState × List Report :=
  if s.game.status ≠ .discussion then (s, [])
  else
    let r := startVotingPhase now s
    (r.1, .timeUp :: r.2)

/-- `finalizeVoting` (voting deadline callback). -/
def finalizeVoting (s : ManagerState) : ManagerState × List Report :=
  if s.game.status ≠ .voting then (s, [])
  else
    match calculateVoteResults s.game with
    | none => ({ s with game := resetGameState s.game }, [.noVotesDraw])
    | some (votedOutInboxId, voteCount) =>
        match getPlayer s.game votedOutInboxId with
        | none => ({ s with game := resetGameState s.game }, [.voteError])
        | some _votedOutPlayer =>
            let w := determineWinner s.game votedOutInboxId
            let g := { s.game with votedOutInboxId := some votedOutInboxId
                                   winner := some w
                                   status := .ended }
            let s₁ := schedule { s with game := g } .resetAfterEnd 5000
            (s₁, [.results votedOutInboxId voteCount s.game.imposterInboxId
                   s.game.secretWord w s.game.votes])

/-- `cancelGame`. -/
def cancelGame (s : ManagerState) : ManagerState × List Report :=
  if !isGameActive s.game then (s, [.noActiveGame])
  else
    let s₁ := clearTimer s
    ({ s₁ with game := resetGameState s₁.game }, [.gameCancelled])

/-- Dispatch a fired timeout to its callback. -/
def runCallback (env : Env) (now : Nat) (cb : Callback) (s : ManagerState) :
    ManagerState × List Report :=
  match cb with
  | .finalizeDurationVote => finalizeDurationVote env s
  | .endDiscussion => endDiscussionPhase now s
  | .finalizeVoting => finalizeVoting s
  | .selectSpeaker => selectRandomSpeaker env now s
  | .resetAfterEnd => ({ s with game := resetGameState s.game }, [])

/-- Fire a pending timeout: it is consumed, then its callback runs. -/
def fireTimeout (env : Env) (now : Nat) (t : Timeout) (s : ManagerState) :
    ManagerState × List Report :=
  runCallback env now t.callback { s with pending := s.pending.filter (fun x => x.id ≠ t.id) }

/-- Observable events of one manager transition. -/
inductive Label
  | started
  | durVoted (voter : String) (d : GameDuration)
  | playerVoted (voter votee : String)
  | cancelled
  | fired (id : Nat) (cb : Callback)

/-- One transition of the orchestrator: an inbound command, an inbound
vote, or an armed timeout firing. -/
inductive Step : ManagerState → Label → ManagerState → Prop
  | start (env : Env) (s : ManagerState) : Step s .started (startGame env s).1
  | durVote (s : ManagerState) (voter : String) (d : GameDuration) :
      Step s (.durVoted voter d) (handleDurationVote s voter d)
  | playerVote (s : ManagerState) (voter votee : String) :
      Step s (.playerVoted voter votee) (handlePlayerVote s voter votee)
  | cancel (s : ManagerState) : Step s .cancelled (cancelGame s).1
  | fire (env : Env) (now : Nat) (t : Timeout) (s : ManagerState) (ht : t ∈ s.pending) :
      Step s (.fired t.id t.callback) (fireTimeout env now t s).1

/-- A finite run of the orchestrator with its emitted labels. -/
inductive Trace : ManagerState → List Label → ManagerState → Prop
  | nil (s : ManagerState) : Trace s [] s
  | cons {s s₁ s₂ : ManagerState} {l : Label} {ls : List Label}
      (h : Step s l s₁) (t : Trace s₁ ls s₂) : Trace s (l :: ls) s₂

/-! ## Timer freshness

Every transition only removes pending timeouts or arms fresh ones whose
ids come from the monotone counter, so a timeout id that is cancelled
and below the counter can never become pending again. -/

/-- The timeouts of `s'` all come from `s` or are freshly armed. -/
def pendingSub (s s' : ManagerState) : Prop :=
  s.nextId ≤ s'.nextId ∧ ∀ t ∈ s'.pending, t ∈ s.pending ∨ s.nextId ≤ t.id

theorem pendingSub_refl (s : ManagerState) : pendingSub s s :=
  ⟨Nat.le_refl _, fun _ ht => Or.inl ht⟩

theorem pendingSub_of_eq {s s' : ManagerState} (h1 : s'.pending = s.pending)
    (h2 : s'.nextId = s.nextId) : pendingSub s s' :=
  ⟨h2.ge, fun _ ht => Or.inl (h1 ▸ ht)⟩

theorem pendingSub_trans {s₁ s₂ s₃ : ManagerState}
    (h12 : pendingSub s₁ s₂) (h23 : pendingSub s₂ s₃) : pendingSub s₁ s₃ := by
  refine ⟨Nat.le_trans h12.1 h23.1, fun t ht => ?_⟩
  rcases h23.2 t ht with h | h
  · exact h12.2 t h
  · exact Or.inr (Nat.le_trans h12.1 h)

theorem pendingSub_filter (s : ManagerState) (P : Timeout → Bool) :
    pendingSub s { s with pending := s.pending.filter P } :=
  ⟨Nat.le_refl _, fun _ ht => Or.inl (List.mem_of_mem_filter ht)⟩

theorem pendingSub_setTimer (s : ManagerState) (cb : Callback) (d : Nat) :
    pendingSub s (setTimer s cb d) := by
  refine ⟨Nat.le_succ _, fun t ht => ?_⟩
  simp only [setTimer] at ht
  rcases List.mem_append.mp ht with h | h
  · cases he : s.timersEntry with
    | none => rw [he] at h; exact Or.inl h
    | some tid => rw [he] at h; exact Or.inl (List.mem_of_mem_filter h)
  · rcases List.mem_singleton.mp h with rfl
    exact Or.inr (Nat.le_refl _)

theorem pendingSub_schedule (s : ManagerState) (cb : Callback) (d : Nat) :
    pendingSub s (schedule s cb d) := by
  refine ⟨Nat.le_succ _, fun t ht => ?_⟩
  simp only [schedule] at ht
  rcases List.mem_append.mp ht with h | h
  · exact Or.inl h
  · rcases List.mem_singleton.mp h with rfl
    exact Or.inr (Nat.le_refl _)

theorem pendingSub_clearTimer (s : ManagerState) : pendingSub s (clearTimer s) := by
  unfold clearTimer
  cases s.timersEntry with
  | none => exact pendingSub_refl s
  | some tid => exact pendingSub_filter s _

theorem pendingSub_game (s : ManagerState) (g : GameState) :
    pendingSub s { s with game := g } := pendingSub_of_eq rfl rfl

theorem startGame_pendingSub (env : Env) (s : ManagerState) :
    pendingSub s (startGame env s).1 := by
  unfold startGame
  split
  · exact pendingSub_refl s
  · split
    · exact pendingSub_refl s
    · exact pendingSub_trans (pendingSub_game s _) (pendingSub_setTimer _ _ _)

theorem handleDurationVote_pendingSub (s : ManagerState) (v : String) (d : GameDuration) :
    pendingSub s (handleDurationVote s v d) := by
  unfold handleDurationVote
  split
  · exact pendingSub_refl s
  · exact pendingSub_game s _

theorem handlePlayerVote_pendingSub (s : ManagerState) (v w : String) :
    pendingSub s (handlePlayerVote s v w) := by
  unfold handlePlayerVote
  split
  · exact pendingSub_refl s
  · exact pendingSub_game s _

theorem cancelGame_pendingSub (s : ManagerState) : pendingSub s (cancelGame s).1 := by
  unfold cancelGame
  split
  · exact pendingSub_refl s
  · exact pendingSub_trans (pendingSub_clearTimer s) (pendingSub_game _ _)

theorem assignRoles_pendingSub (env : Env) (s : ManagerState) :
    pendingSub s (assignRoles env s).1 := by
  unfold assignRoles
  dsimp only
  split
  · exact pendingSub_game s _
  · split
    · exact pendingSub_game s _
    · exact pendingSub_trans (pendingSub_game s _) (pendingSub_schedule _ _ _)

theorem finalizeDurationVote_pendingSub (env : Env) (s : ManagerState) :
    pendingSub s (finalizeDurationVote env s).1 := by
  unfold finalizeDurationVote
  split
  · exact pendingSub_refl s
  · split
    · exact pendingSub_game s _
    · exact pendingSub_trans (pendingSub_game s _) (assignRoles_pendingSub env _)

theorem startDiscussionPhase_pendingSub (now : Nat) (s : ManagerState) :
    pendingSub s (startDiscussionPhase now s) := by
  unfold startDiscussionPhase
  exact pendingSub_trans (pendingSub_game s _) (pendingSub_setTimer _ _ _)

theorem selectRandomSpeaker_pendingSub (env : Env) (now : Nat) (s : ManagerState) :
    pendingSub s (selectRandomSpeaker env now s).1 := by
  unfold selectRandomSpeaker
  dsimp only
  split
  · exact pendingSub_refl s
  · exact pendingSub_trans (pendingSub_game s _) (startDiscussionPhase_pendingSub now _)

theorem startVotingPhase_pendingSub (now : Nat) (s : ManagerState) :
    pendingSub s (startVotingPhase now s).1 := by
  unfold startVotingPhase
  exact pendingSub_trans (pendingSub_game s _) (pendingSub_setTimer _ _ _)

theorem endDiscussionPhase_pendingSub (now : Nat) (s : ManagerState) :
    pendingSub s (endDiscussionPhase now s).1 := by
  unfold endDiscussionPhase
  split
  · exact pendingSub_refl s
  · exact startVotingPhase_pendingSub now s

theorem finalizeVoting_pendingSub (s : ManagerState) :
    pendingSub s (finalizeVoting s).1 := by
  unfold finalizeVoting
  split
  · exact pendingSub_refl s
  · split
    · exact pendingSub_game s _
    · split
      · exact pendingSub_game s _
      · exact pendingSub_trans (pendingSub_game s _) (pendingSub_schedule _ _ _)

theorem runCallback_pendingSub (env : Env) (now : Nat) (cb : Callback) (s : ManagerState) :
    pendingSub s (runCallback env now cb s).1 := by
  cases cb with
  | finalizeDurationVote => exact finalizeDurationVote_pendingSub env s
  | endDiscussion => exact endDiscussionPhase_pendingSub now s
  | finalizeVoting => exact finalizeVoting_pendingSub s
  | selectSpeaker => exact selectRandomSpeaker_pendingSub env now s
  | resetAfterEnd => exact pendingSub_game s _

theorem fireTimeout_pendingSub (env : Env) (now : Nat) (t : Timeout) (s : ManagerState) :
    pendingSub s (fireTimeout env now t s).1 := by
  unfold fireTimeout
  exact pendingSub_trans (pendingSub_filter s _) (runCallback_pendingSub env now _ _)

theorem step_pendingSub {s s' : ManagerState} {l : Label} (h : Step s l s') :
    pendingSub s s' := by
  cases h with
  | start env s => exact startGame_pendingSub env s
  | durVote s v d => exact handleDurationVote_pendingSub s v d
  | playerVote s v w => exact handlePlayerVote_pendingSub s v w
  | cancel s => exact cancelGame_pendingSub s
  | fire env now t s ht => exact fireTimeout_pendingSub env now t s

/-- Timeout id `tid` is dead at `s`: below the fresh counter and not
pending.  Such an id can never fire again. -/
def avoid (tid : Nat) (s : ManagerState) : Prop :=
  tid < s.nextId ∧ ∀ t ∈ s.pending, t.id ≠ tid

theorem avoid_mono {tid : Nat} {s s' : ManagerState} (hsub : pendingSub s s')
    (h : avoid tid s) : avoid tid s' := by
  refine ⟨Nat.lt_of_lt_of_le h.1 hsub.1, fun t ht => ?_⟩
  rcases hsub.2 t ht with hm | hf
  · exact h.2 t hm
  · have := h.1
    omega

theorem trace_avoid {tid : Nat} {s s' : ManagerState} {ls : List Label}
    (htr : Trace s ls s') (h : avoid tid s) : avoid tid s' := by
  induction htr with
  | nil s => exact h
  | cons hstep _ ih => exact ih (avoid_mono (step_pendingSub hstep) h)

theorem trace_no_dead_fire {tid : Nat} {s s' : ManagerState} {ls : List Label}
    (htr : Trace s ls s') (h : avoid tid s) :
    ∀ cb, Label.fired tid cb ∉ ls := by
  induction htr with
  | nil s => intro cb hmem; cases hmem
  | cons hstep _ ih =>
    intro cb hmem
    rcases List.mem_cons.mp hmem with he | hmem'
    · subst he
      cases hstep with
      | fire env now t s ht => exact h.2 t ht rfl
    · exact ih (avoid_mono (step_pendingSub hstep) h) cb hmem'

/-- The `this.timers` handle, when present, was issued by the counter. -/
def TimerBound (s : ManagerState) : Prop :=
  ∀ tid, s.timersEntry = some tid → tid < s.nextId

/-! ## Vote-recording sequences (overwrite semantics) -/

/-- The duration vote currently stored for a voter. -/
def lookupDurationVote (s : GameState) (voterInboxId : String) : Option GameDuration :=
  (s.durationVotes.find? (fun v => v.voterInboxId = voterInboxId)).map DurationVote.duration

/-- One call of the two vote-recording functions. -/
inductive VoteOp
  | dur (voter : String) (d : GameDuration)
  | acc (voter votee : String)

/-- Apply one recording call. -/
def applyVoteOp (s : GameState) : VoteOp → GameState
  | .dur v d => recordDurationVote s v d
  | .acc v t => recordVote s v t

/-- Apply a whole call sequence, oldest first. -/
def applyVoteOps (s : GameState) (ops : List VoteOp) : GameState :=
  ops.foldl applyVoteOp s

/-- First-some choice; mirrors overwrite precedence. -/
def orO {α : Type} (a b : Option α) : Option α :=
  match a with
  | some x => some x
  | none => b

theorem orO_none_right {α : Type} (a : Option α) : orO a none = a := by
  cases a <;> rfl

theorem orO_assoc {α : Type} (a b c : Option α) :
    orO (orO a b) c = orO a (orO b c) := by
  cases a <;> rfl

/-- Fold step computing the latest duration vote of `voter` in a call
sequence. -/
def lastDurStep (voter : String) (acc : Option GameDuration) : VoteOp → Option GameDuration
  | .dur v d => if v = voter then some d else acc
  | .acc _ _ => acc

/-- Latest duration vote of `voter` in the call sequence. -/
def lastDur (ops : List VoteOp) (voter : String) : Option GameDuration :=
  ops.foldl (lastDurStep voter) none

/-- Fold step computing the latest accusation of `voter`. -/
def lastAccStep (voter : String) (acc : Option String) : VoteOp → Option String
  | .acc v t => if v = voter then some t else acc
  | .dur _ _ => acc

/-- Latest accusation of `voter` in the call sequence. -/
def lastAcc (ops : List VoteOp) (voter : String) : Option String :=
  ops.foldl (lastAccStep voter) none

theorem foldl_lastDurStep (ops : List VoteOp) (voter : String) (i : Option GameDuration) :
    ops.foldl (lastDurStep voter) i = orO (lastDur ops voter) i := by
  induction ops generalizing i with
  | nil => simp [lastDur, orO]
  | cons op ops ih =>
    simp only [lastDur, List.foldl_cons] at *
    rw [ih, ih (lastDurStep voter none op)]
    cases hl : ops.foldl (lastDurStep voter) none with
    | some d => rfl
    | none =>
      cases op with
      | dur v d =>
        simp only [lastDurStep, orO]
        by_cases hv : v = voter
        · rw [if_pos hv, if_pos hv]
        · rw [if_neg hv, if_neg hv]
      | acc v t => rfl

theorem foldl_lastAccStep (ops : List VoteOp) (voter : String) (i : Option String) :
    ops.foldl (lastAccStep voter) i = orO (lastAcc ops voter) i := by
  induction ops generalizing i with
  | nil => simp [lastAcc, orO]
  | cons op ops ih =>
    simp only [lastAcc, List.foldl_cons] at *
    rw [ih, ih (lastAccStep voter none op)]
    cases hl : ops.foldl (lastAccStep voter) none with
    | some d => rfl
    | none =>
      cases op with
      | acc v t =>
        simp only [lastAccStep, orO]
        by_cases hv : v = voter
        · rw [if_pos hv, if_pos hv]
        · rw [if_neg hv, if_neg hv]
      | dur v d => rfl

theorem find?_filter_of_imp {α : Type} (l : List α) (p q : α → Bool)
    (h : ∀ x, p x = true → q x = true) : (l.filter q).find? p = l.find? p := by
  induction l with
  | nil => rfl
  | cons x t ih =>
    by_cases hq : q x = true
    · rw [List.filter_cons_of_pos hq, List.find?_cons, List.find?_cons]
      cases hp : p x with
      | true => rfl
      | false => exact ih
    · rw [List.filter_cons_of_neg (by simpa using hq), List.find?_cons]
      cases hp : p x with
      | true => exact absurd (h x hp) hq
      | false => exact ih

theorem recordVote_votes (s : GameState) (v t : String) :
    (recordVote s v t).votes = jset s.votes v t := by
  unfold recordVote
  dsimp only
  cases jget s.players v <;> rfl

theorem recordVote_durationVotes (s : GameState) (v t : String) :
    (recordVote s v t).durationVotes = s.durationVotes := by
  unfold recordVote
  dsimp only
  cases jget s.players v <;> rfl

theorem lookupDurationVote_record (s : GameState) (v v' : String) (d : GameDuration) :
    lookupDurationVote (recordDurationVote s v d) v' =
      if v = v' then some d else lookupDurationVote s v' := by
  unfold lookupDurationVote recordDurationVote
  simp only [List.find?_append]
  by_cases hv : v = v'
  · subst hv
    have hleft : (s.durationVotes.filter
        (fun x => x.voterInboxId ≠ v)).find? (fun x => x.voterInboxId = v) = none := by
      rw [List.find?_eq_none]
      intro x hx
      have := List.of_mem_filter hx
      simpa using this
    rw [hleft]
    simp [List.find?_cons]
  · have hright : (([{ voterInboxId := v, duration := d }] : List DurationVote).find?
        (fun x => x.voterInboxId = v')) = none := by
      rw [List.find?_eq_none]
      intro x hx
      rcases List.mem_singleton.mp hx with rfl
      simpa using hv
    rw [hright]
    have hleft : (s.durationVotes.filter
        (fun x => x.voterInboxId ≠ v)).find? (fun x => x.voterInboxId = v') =
        s.durationVotes.find? (fun x => x.voterInboxId = v') := by
      refine find?_filter_of_imp _ _ _ ?_
      intro x hx
      have : x.voterInboxId = v' := by simpa using hx
      simp [this, hv]
      intro he
      exact hv he.symm
    rw [hleft, if_neg hv]
    cases s.durationVotes.find? (fun x => x.voterInboxId = v') <;> rfl

theorem jget_recordVote_votes (s : GameState) (v t v' : String) :
    jget (recordVote s v t).votes v' = if v = v' then some t else jget s.votes v' := by
  rw [recordVote_votes]
  by_cases hv : v = v'
  · subst hv
    rw [if_pos rfl]
    exact jget_jset_self _ _ _
  · rw [if_neg hv]
    exact jget_jset_ne _ _ _ _ (fun he => hv he.symm)

theorem countP_dur_recordDurationVote (s : GameState) (v v' : String) (d : GameDuration)
    (h : s.durationVotes.countP (fun x => x.voterInboxId = v') ≤ 1) :
    (recordDurationVote s v d).durationVotes.countP (fun x => x.voterInboxId = v') ≤ 1 := by
  unfold recordDurationVote
  dsimp only
  rw [List.countP_append]
  by_cases hv : v = v'
  · subst hv
    have hleft : (s.durationVotes.filter
        (fun x => x.voterInboxId ≠ v)).countP (fun x => x.voterInboxId = v) = 0 := by
      rw [List.countP_eq_zero]
      intro x hx
      have := List.of_mem_filter hx
      simpa using this
    rw [hleft]
    simp
  · have hright : ([({ voterInboxId := v, duration := d } : DurationVote)]).countP
        (fun x => x.voterInboxId = v') = 0 := by
      rw [List.countP_eq_zero]
      intro x hx
      rcases List.mem_singleton.mp hx with rfl
      simpa using hv
    rw [hright, Nat.add_zero]
    calc (s.durationVotes.filter (fun x => x.voterInboxId ≠ v)).countP
          (fun x => x.voterInboxId = v')
        ≤ s.durationVotes.countP (fun x => x.voterInboxId = v') :=
          List.Sublist.countP_le _ (List.filter_sublist _)
      _ ≤ 1 := h

theorem countP_jset_ne {V : Type} (m : JMap String V) (k : String) (val : V) (v' : String)
    (hk : k ≠ v') :
    (jset m k val).countP (fun p => p.1 = v') = m.countP (fun p => p.1 = v') := by
  induction m with
  | nil => simp [jset, List.countP_cons, hk]
  | cons q rest ih =>
    obtain ⟨k₀, v₀⟩ := q
    simp only [jset]
    by_cases h₀ : k₀ = k
    · rw [if_pos h₀]
      subst h₀
      simp [List.countP_cons, hk]
    · rw [if_neg h₀]
      rw [List.countP_cons, List.countP_cons, ih]

theorem countP_jset_le_one {V : Type} (m : JMap String V) (k : String) (val : V) (v' : String)
    (h : m.countP (fun p => p.1 = v') ≤ 1) :
    (jset m k val).countP (fun p => p.1 = v') ≤ 1 := by
  induction m with
  | nil =>
    simp only [jset, List.countP_cons, List.countP_nil]
    split <;> omega
  | cons q rest ih =>
    obtain ⟨k₀, v₀⟩ := q
    simp only [jset]
    by_cases hk : k₀ = k
    · rw [if_pos hk]
      subst hk
      simpa [List.countP_cons] using h
    · rw [if_neg hk]
      rw [List.countP_cons] at h ⊢
      by_cases hv : k₀ = v'
      · have hkv : k ≠ v' := fun he => hk (hv.trans he.symm)
        rw [countP_jset_ne rest k val v' hkv]
        omega
      · have h0 : (if decide ((k₀, v₀).1 = v') = true then 1 else 0) = 0 := by simp [hv]
        rw [h0, Nat.add_zero] at h ⊢
        exact ih h

theorem countP_acc_recordVote (s : GameState) (v t v' : String)
    (h : s.votes.countP (fun p => p.1 = v') ≤ 1) :
    (recordVote s v t).votes.countP (fun p => p.1 = v') ≤ 1 := by
  rw [recordVote_votes]
  exact countP_jset_le_one _ _ _ _ h

theorem applyVoteOps_lookupDur (ops : List VoteOp) (s : GameState) (v : String) :
    lookupDurationVote (applyVoteOps s ops) v =
      orO (lastDur ops v) (lookupDurationVote s v) := by
  induction ops generalizing s with
  | nil => simp [applyVoteOps, lastDur, orO]
  | cons op ops ih =>
    have hsplit : lastDur (op :: ops) v = orO (lastDur ops v) (lastDurStep v none op) := by
      simp only [lastDur, List.foldl_cons]
      exact foldl_lastDurStep ops v _
    rw [show applyVoteOps s (op :: ops) = applyVoteOps (applyVoteOp s op) ops from rfl,
      ih, hsplit, orO_assoc]
    congr 1
    cases op with
    | dur v₀ d =>
      simp only [applyVoteOp, lastDurStep]
      rw [lookupDurationVote_record]
      by_cases hv : v₀ = v
      · rw [if_pos hv, if_pos hv]; rfl
      · rw [if_neg hv, if_neg hv]; rfl
    | acc v₀ t =>
      simp only [applyVoteOp, lastDurStep, orO]
      unfold lookupDurationVote
      rw [recordVote_durationVotes]

theorem applyVoteOps_lookupAcc (ops : List VoteOp) (s : GameState) (v : String) :
    jget (applyVoteOps s ops).votes v = orO (lastAcc ops v) (jget s.votes v) := by
  induction ops generalizing s with
  | nil => simp [applyVoteOps, lastAcc, orO]
  | cons op ops ih =>
    have hsplit : lastAcc (op :: ops) v = orO (lastAcc ops v) (lastAccStep v none op) := by
      simp only [lastAcc, List.foldl_cons]
      exact foldl_lastAccStep ops v _
    rw [show applyVoteOps s (op :: ops) = applyVoteOps (applyVoteOp s op) ops from rfl,
      ih, hsplit, orO_assoc]
    congr 1
    cases op with
    | acc v₀ t =>
      simp only [applyVoteOp, lastAccStep]
      rw [jget_recordVote_votes]
      by_cases hv : v₀ = v
      · rw [if_pos hv, if_pos hv]; rfl
      · rw [if_neg hv, if_neg hv]; rfl
    | dur v₀ d =>
      simp only [applyVoteOp, lastAccStep, orO]
      rfl

theorem applyVoteOps_countP (ops : List VoteOp) (s : GameState) (v : String)
    (h1 : s.durationVotes.countP (fun x => x.voterInboxId = v) ≤ 1)
    (h2 : s.votes.countP (fun p => p.1 = v) ≤ 1) :
    (applyVoteOps s ops).durationVotes.countP (fun x => x.voterInboxId = v) ≤ 1 ∧
    (applyVoteOps s ops).votes.countP (fun p => p.1 = v) ≤ 1 := by
  induction ops generalizing s with
  | nil => exact ⟨h1, h2⟩
  | cons op ops ih =>
    rw [show applyVoteOps s (op :: ops) = applyVoteOps (applyVoteOp s op) ops from rfl]
    cases op with
    | dur v₀ d =>
      refine ih _ (countP_dur_recordDurationVote s v₀ v d h1) ?_
      show (recordDurationVote s v₀ d).votes.countP (fun p => p.1 = v) ≤ 1
      exact h2
    | acc v₀ t =>
      refine ih _ ?_ (countP_acc_recordVote s v₀ t v h2)
      show (recordVote s v₀ t).durationVotes.countP (fun x => x.voterInboxId = v) ≤ 1
      rw [recordVote_durationVotes]
      exact h1

/-! ## Impostor invariant -/

/-- The spec's impostor invariant: when the impostor id is set it names a
registered player, that player is flagged, and nobody else is flagged. -/
def ImposterInv (g : GameState) : Prop :=
  ∀ i, g.imposterInboxId = some i →
    (∃ p, jget g.players i = some p ∧ p.isImposter = true) ∧
    (∀ k p, jget g.players k = some p → k ≠ i → p.isImposter = false)

/-- No player is flagged as impostor. -/
def AllClear (g : GameState) : Prop :=
  ∀ k p, jget g.players k = some p → p.isImposter = false

theorem imposterInv_of_none {g : GameState} (h : g.imposterInboxId = none) :
    ImposterInv g := by
  intro i hi
  rw [h] at hi
  cases hi

theorem imposterInv_congr {g g' : GameState} (hp : g'.players = g.players)
    (hi : g'.imposterInboxId = g.imposterInboxId) (h : ImposterInv g) : ImposterInv g' := by
  intro i he
  rw [hi] at he
  rw [hp]
  exact h i he

/-- Phase-indexed strengthening of the impostor invariant, preserved by
every orchestrator transition: in `idle`/`voting_duration` phases the
player map is empty and no impostor is chosen. -/
def GoodState (g : GameState) : Prop :=
  ((g.status = .idle ∨ g.status = .votingDuration) →
    g.players = [] ∧ g.imposterInboxId = none) ∧
  ImposterInv g

theorem goodState_congr {g g' : GameState} (hs : g'.status = g.status)
    (hp : g'.players = g.players) (hi : g'.imposterInboxId = g.imposterInboxId)
    (h : GoodState g) : GoodState g' := by
  refine ⟨?_, imposterInv_congr hp hi h.2⟩
  intro hst
  rw [hs] at hst
  rw [hp, hi]
  exact h.1 hst

theorem goodState_reset (g : GameState) : GoodState (resetGameState g) :=
  ⟨fun _ => ⟨rfl, rfl⟩, imposterInv_of_none rfl⟩

theorem goodState_create (gid : String) : GoodState (createGameState gid) :=
  ⟨fun _ => ⟨rfl, rfl⟩, imposterInv_of_none rfl⟩

theorem addPlayer_status (g : GameState) (i a : String) :
    (addPlayer g i a).status = g.status := by
  unfold addPlayer
  split <;> rfl

theorem addPlayer_imposter (g : GameState) (i a : String) :
    (addPlayer g i a).imposterInboxId = g.imposterInboxId := by
  unfold addPlayer
  split <;> rfl

theorem allClear_addPlayer {g : GameState} (h : AllClear g) (i a : String) :
    AllClear (addPlayer g i a) := by
  unfold addPlayer
  split
  · exact h
  · intro k p hk
    by_cases hki : i = k
    · subst hki
      rw [show jget (jset g.players i _) i = some _ from jget_jset_self _ _ _] at hk
      injection hk with hk
      rw [← hk]
    · rw [jget_jset_ne _ _ _ _ (fun he => hki he.symm)] at hk
      exact h k p hk

theorem allClear_of_players_nil {g : GameState} (h : g.players = []) : AllClear g := by
  intro k p hk
  rw [h] at hk
  cases hk

theorem addMembers_status (bot : String) (ms : List (String × String)) (g : GameState) :
    (addMembers bot ms g).status = g.status := by
  induction ms generalizing g with
  | nil => rfl
  | cons m ms ih =>
    show (addMembers bot ms _).status = g.status
    rw [ih]
    dsimp only
    split <;> simp [addPlayer_status]

theorem addMembers_imposter (bot : String) (ms : List (String × String)) (g : GameState) :
    (addMembers bot ms g).imposterInboxId = g.imposterInboxId := by
  induction ms generalizing g with
  | nil => rfl
  | cons m ms ih =>
    show (addMembers bot ms _).imposterInboxId = g.imposterInboxId
    rw [ih]
    dsimp only
    split <;> simp [addPlayer_imposter]

theorem allClear_addMembers (bot : String) (ms : List (String × String)) {g : GameState}
    (h : AllClear g) : AllClear (addMembers bot ms g) := by
  induction ms generalizing g with
  | nil => exact h
  | cons m ms ih =>
    show AllClear (addMembers bot ms _)
    refine ih ?_
    dsimp only
    split
    · exact allClear_addPlayer h _ _
    · exact h

theorem setImposter_status (g : GameState) (i : String) :
    (setImposter g i).status = g.status := by
  unfold setImposter
  cases jget g.players i <;> rfl

theorem imposterInv_setImposter {g : GameState} (i : String) (hc : AllClear g)
    (hn : g.imposterInboxId = none) : ImposterInv (setImposter g i) := by
  unfold setImposter
  cases hj : jget g.players i with
  | none => exact imposterInv_of_none hn
  | some p =>
    intro i' hi'
    injection hi' with hi'
    subst hi'
    constructor
    · exact ⟨_, jget_jset_self _ _ _, rfl⟩
    · intro k q hk hki
      rw [jget_jset_ne _ _ _ _ hki] at hk
      exact hc k q hk

theorem recordVote_status (g : GameState) (v t : String) :
    (recordVote g v t).status = g.status := by
  unfold recordVote
  dsimp only
  cases jget g.players v <;> rfl

theorem recordVote_imposter (g : GameState) (v t : String) :
    (recordVote g v t).imposterInboxId = g.imposterInboxId := by
  unfold recordVote
  dsimp only
  cases jget g.players v <;> rfl

theorem imposterInv_update_player {g : GameState} {v : String} {voter voted : Player}
    (hj : jget g.players v = some voter) (hfl : voted.isImposter = voter.isImposter)
    (h : ImposterInv g) (g' : GameState)
    (hp : g'.players = jset g.players v voted)
    (hi : g'.imposterInboxId = g.imposterInboxId) : ImposterInv g' := by
  intro i he
  rw [hi] at he
  obtain ⟨⟨p, hp₀, hflag⟩, hothers⟩ := h i he
  rw [hp]
  constructor
  · by_cases hvi : v = i
    · subst hvi
      refine ⟨voted, jget_jset_self _ _ _, ?_⟩
      rw [hj] at hp₀
      injection hp₀ with hp₀
      rw [hfl, hp₀]
      exact hflag
    · refine ⟨p, ?_, hflag⟩
      rw [jget_jset_ne _ _ _ _ (fun he2 => hvi he2.symm)]
      exact hp₀
  · intro k q hk hki
    by_cases hkv : k = v
    · subst hkv
      rw [jget_jset_self _ _ _] at hk
      injection hk with hk
      rw [← hk, hfl]
      exact hothers k voter hj hki
    · rw [jget_jset_ne _ _ _ _ hkv] at hk
      exact hothers k q hk hki

theorem imposterInv_recordVote {g : GameState} (v t : String) (h : ImposterInv g) :
    ImposterInv (recordVote g v t) := by
  unfold recordVote
  dsimp only
  cases hj : jget g.players v with
  | none => exact imposterInv_congr rfl rfl h
  | some voter =>
    exact @imposterInv_update_player g v voter
      { inboxId := voter.inboxId, address := voter.address,
        isImposter := voter.isImposter, hasVoted := true, votedFor := some t }
      hj rfl h _ rfl rfl

theorem goodState_startGame (env : Env) (s : ManagerState) (h : GoodState s.game) :
    GoodState (startGame env s).1.game := by
  unfold startGame
  split
  · exact h
  · split
    · exact h
    · exact ⟨fun _ => ⟨rfl, rfl⟩, imposterInv_of_none rfl⟩

theorem goodState_handleDurationVote (s : ManagerState) (v : String) (d : GameDuration)
    (h : GoodState s.game) : GoodState (handleDurationVote s v d).game := by
  unfold handleDurationVote
  split
  · exact h
  · refine ⟨?_, imposterInv_congr rfl rfl h.2⟩
    intro hc
    exact h.1 hc

theorem goodState_handlePlayerVote (s : ManagerState) (v w : String)
    (h : GoodState s.game) : GoodState (handlePlayerVote s v w).game := by
  unfold handlePlayerVote
  split
  · exact h
  · rename_i hst
    have hv : s.game.status = .voting := not_not.mp hst
    refine ⟨?_, imposterInv_recordVote v w h.2⟩
    intro hc
    exfalso
    rw [recordVote_status, hv] at hc
    rcases hc with h1 | h1 <;> exact GameStatus.noConfusion h1

theorem goodState_cancelGame (s : ManagerState) (h : GoodState s.game) :
    GoodState (cancelGame s).1.game := by
  unfold cancelGame
  split
  · exact h
  · exact goodState_reset _

theorem goodState_assignRoles (env : Env) (s : ManagerState)
    (hp : s.game.players = []) (hi : s.game.imposterInboxId = none) :
    GoodState (assignRoles env s).1.game := by
  unfold assignRoles
  dsimp only
  split
  · exact goodState_reset _
  · split
    · exact goodState_reset _
    · split
      · rename_i imposterInboxId heq
        constructor
        · intro hc
          exfalso
          rw [setImposter_status, addMembers_status] at hc
          rcases hc with h1 | h1 <;> exact GameStatus.noConfusion h1
        · refine imposterInv_congr rfl rfl ?_
          refine imposterInv_setImposter _ ?_ ?_
          · exact allClear_addMembers _ _ (allClear_of_players_nil hp)
          · rw [addMembers_imposter]
            exact hi
      · constructor
        · intro hc
          exfalso
          rw [addMembers_status] at hc
          rcases hc with h1 | h1 <;> exact GameStatus.noConfusion h1
        · refine imposterInv_congr rfl rfl ?_
          refine imposterInv_of_none ?_
          rw [addMembers_imposter]
          exact hi

theorem goodState_finalizeDurationVote (env : Env) (s : ManagerState)
    (h : GoodState s.game) : GoodState (finalizeDurationVote env s).1.game := by
  unfold finalizeDurationVote
  split
  · exact h
  · rename_i hst
    have hv : s.game.status = .votingDuration := not_not.mp hst
    obtain ⟨hp, hi⟩ := h.1 (Or.inr hv)
    split
    · exact goodState_reset _
    · exact goodState_assignRoles env _ hp hi

theorem goodState_startDiscussionPhase (now : Nat) (s : ManagerState)
    (h : ImposterInv s.game) : GoodState (startDiscussionPhase now s).game := by
  refine ⟨?_, imposterInv_congr rfl rfl h⟩
  intro hc
  exfalso
  rcases hc with h1 | h1 <;> exact GameStatus.noConfusion h1

theorem goodState_selectRandomSpeaker (env : Env) (now : Nat) (s : ManagerState)
    (h : GoodState s.game) : GoodState (selectRandomSpeaker env now s).1.game := by
  unfold selectRandomSpeaker
  dsimp only
  split
  · exact h
  · exact goodState_startDiscussionPhase now _ (imposterInv_congr rfl rfl h.2)

theorem goodState_startVotingPhase (now : Nat) (s : ManagerState)
    (h : ImposterInv s.game) : GoodState (startVotingPhase now s).1.game := by
  refine ⟨?_, imposterInv_congr rfl rfl h⟩
  intro hc
  exfalso
  rcases hc with h1 | h1 <;> exact GameStatus.noConfusion h1

theorem goodState_endDiscussionPhase (now : Nat) (s : ManagerState)
    (h : GoodState s.game) : GoodState (endDiscussionPhase now s).1.game := by
  unfold endDiscussionPhase
  split
  · exact h
  · exact goodState_startVotingPhase now s h.2

theorem goodState_finalizeVoting (s : ManagerState) (h : GoodState s.game) :
    GoodState (finalizeVoting s).1.game := by
  unfold finalizeVoting
  split
  · exact h
  · split
    · exact goodState_reset _
    · split
      · exact goodState_reset _
      · refine ⟨?_, imposterInv_congr rfl rfl h.2⟩
        intro hc
        exfalso
        rcases hc with h1 | h1 <;> exact GameStatus.noConfusion h1

theorem goodState_runCallback (env : Env) (now : Nat) (cb : Callback) (s : ManagerState)
    (h : GoodState s.game) : GoodState (runCallback env now cb s).1.game := by
  cases cb with
  | finalizeDurationVote => exact goodState_finalizeDurationVote env s h
  | endDiscussion => exact goodState_endDiscussionPhase now s h
  | finalizeVoting => exact goodState_finalizeVoting s h
  | selectSpeaker => exact goodState_selectRandomSpeaker env now s h
  | resetAfterEnd => exact goodState_reset _

theorem goodState_step {s s' : ManagerState} {l : Label} (h : Step s l s')
    (hg : GoodState s.game) : GoodState s'.game := by
  cases h with
  | start env s => exact goodState_startGame env s hg
  | durVote s v d => exact goodState_handleDurationVote s v d hg
  | playerVote s v w => exact goodState_handlePlayerVote s v w hg
  | cancel s => exact goodState_cancelGame s hg
  | fire env now t s ht => exact goodState_runCallback env now t.callback _ hg

theorem goodState_trace {s s' : ManagerState} {ls : List Label}
    (htr : Trace s ls s') (h : GoodState s.game) : GoodState s'.game := by
  induction htr with
  | nil s => exact h
  | cons hstep _ ih => exact ih (goodState_step hstep h)

/-! ## Claim theorems -/

/-- C6: for every state and every votedOutId, `determineWinner` returns
`group` if and only if the votedOutId equals the state's impostor
identifier, and returns `imposter` otherwise. -/
theorem claim6_determineWinner : ∀ (s : GameState) (votedOutId : String),
    (determineWinner s votedOutId = .group ↔ s.imposterInboxId = some votedOutId) ∧
    (s.imposterInboxId ≠ some votedOutId → determineWinner s votedOutId = .imposter) := by
  intro s v
  unfold determineWinner
  constructor
  · constructor
    · intro h
      by_cases hc : s.imposterInboxId = some v
      · exact hc
      · rw [if_neg hc] at h
        exact Winner.noConfusion h
    · intro h
      rw [if_pos h]
  · intro h
    rw [if_neg h]

/-- C6 witness: concrete evaluations of `determineWinner` on both sides of
the equivalence. -/
theorem claim6_determineWinner_witness :
    determineWinner { createGameState "group" with imposterInboxId := some "imp" } "imp"
      = .group ∧
    determineWinner { createGameState "group" with imposterInboxId := some "imp" } "other"
      = .imposter :=
  ⟨(claim6_determineWinner _ "imp").1.mpr rfl,
   (claim6_determineWinner _ "other").2 (by decide)⟩

/-- C7: for every sequence of `recordDurationVote` and `recordVote` calls
starting from a fresh session, `durationVotes` holds at most one entry per
voter, namely the voter's most recent duration, and `votes` holds at most
one accusation per voter with last write wins. -/
theorem claim7_voteOverwrite : ∀ (groupId : String) (ops : List VoteOp) (v : String),
    ((applyVoteOps (createGameState groupId) ops).durationVotes.countP
        (fun x => x.voterInboxId = v) ≤ 1) ∧
    lookupDurationVote (applyVoteOps (createGameState groupId) ops) v = lastDur ops v ∧
    ((applyVoteOps (createGameState groupId) ops).votes.countP (fun p => p.1 = v) ≤ 1) ∧
    jget (applyVoteOps (createGameState groupId) ops).votes v = lastAcc ops v := by
  intro groupId ops v
  have hcount := applyVoteOps_countP ops (createGameState groupId) v
    (by simp [createGameState]) (by simp [createGameState])
  refine ⟨hcount.1, ?_, hcount.2, ?_⟩
  · rw [applyVoteOps_lookupDur]
    have : lookupDurationVote (createGameState groupId) v = none := rfl
    rw [this, orO_none_right]
  · rw [applyVoteOps_lookupAcc]
    have : jget (createGameState groupId).votes v = none := rfl
    rw [this, orO_none_right]

/-- C9: `resetGameState` clears every optional session field, empties
`players`, `votes` and `durationVotes`, sets the phase to idle, and keeps
the group id. -/
theorem claim9_resetGameState : ∀ s : GameState,
    (resetGameState s).status = .idle ∧
    (resetGameState s).durationVotes = [] ∧
    (resetGameState s).selectedDuration = none ∧
    (resetGameState s).players = [] ∧
    (resetGameState s).imposterInboxId = none ∧
    (resetGameState s).secretWord = none ∧
    (resetGameState s).startedAt = none ∧
    (resetGameState s).discussionEndTime = none ∧
    (resetGameState s).currentSpeakerInboxId = none ∧
    (resetGameState s).votingStartedAt = none ∧
    (resetGameState s).votes = [] ∧
    (resetGameState s).votedOutInboxId = none ∧
    (resetGameState s).winner = none ∧
    (resetGameState s).groupId = s.groupId :=
  fun _ => ⟨rfl, rfl, rfl, rfl, rfl, rfl, rfl, rfl, rfl, rfl, rfl, rfl, rfl, rfl⟩

/-- C3: `startGame` is a no-op reporting "already in progress" when the
phase is active; it reports "not enough players" and leaves the state
untouched when the group has fewer than 3 members; otherwise it resets the
session to a fresh `voting_duration` phase with all per-session fields
cleared, emits the duration poll, and arms a 60-second deadline. -/
theorem claim3_startGame :
    (∀ (env : Env) (s : ManagerState), isGameActive s.game = true →
      startGame env s = (s, [.alreadyInProgress])) ∧
    (∀ (env : Env) (s : ManagerState), isGameActive s.game = false →
      env.members.length < 3 → startGame env s = (s, [.notEnoughPlayers])) ∧
    (∀ (env : Env) (s : ManagerState), isGameActive s.game = false →
      3 ≤ env.members.length →
      (startGame env s).1.game =
        { createGameState s.game.groupId with status := .votingDuration } ∧
      (startGame env s).1.timersEntry = some s.nextId ∧
      (startGame env s).1.nextId = s.nextId + 1 ∧
      ({ id := s.nextId, callback := .finalizeDurationVote, delay := 60000 } : Timeout)
        ∈ (startGame env s).1.pending ∧
      (startGame env s).2 = [.gameStarting, .durationPoll]) := by
  refine ⟨?_, ?_, ?_⟩
  · intro env s h
    unfold startGame
    rw [if_pos h]
  · intro env s h1 h2
    unfold startGame
    rw [if_neg (by simp [h1]), if_pos h2]
  · intro env s h1 h2
    have h3 : ¬ env.members.length < 3 := by omega
    have heq : startGame env s =
        (setTimer
          { s with game := { resetGameState s.game with status := .votingDuration } }
          .finalizeDurationVote 60000,
          [.gameStarting, .durationPoll]) := by
      unfold startGame
      rw [if_neg (by simp [h1]), if_neg h3]
    refine ⟨by rw [heq]; rfl, by rw [heq]; rfl, by rw [heq]; rfl, ?_, by rw [heq]⟩
    rw [heq]
    exact List.mem_append.mpr (Or.inr (List.mem_singleton.mpr rfl))

/-- C3 witness: on a 3-member group from an idle fresh session the game
starts (fresh voting-duration phase, 60-second deadline armed); on a
2-member group it fails; on an active session it is a no-op. -/
theorem claim3_startGame_witness :
    (startGame
        { members := [("a", "a"), ("b", "b"), ("c", "c")], botInboxId := "bot",
          imposterIndex := 0, word := "Pizza", dmOk := fun _ => true, speakerIndex := 0 }
        (initialManager "group")).1.game =
      { createGameState "group" with status := .votingDuration } ∧
    startGame
        { members := [("a", "a"), ("b", "b")], botInboxId := "bot",
          imposterIndex := 0, word := "Pizza", dmOk := fun _ => true, speakerIndex := 0 }
        (initialManager "group") =
      (initialManager "group", [.notEnoughPlayers]) ∧
    startGame
        { members := [("a", "a"), ("b", "b"), ("c", "c")], botInboxId := "bot",
          imposterIndex := 0, word := "Pizza", dmOk := fun _ => true, speakerIndex := 0 }
        { initialManager "group" with
            game := { createGameState "group" with status := .discussion } } =
      ({ initialManager "group" with
            game := { createGameState "group" with status := .discussion } },
        [.alreadyInProgress]) :=
  ⟨(claim3_startGame.2.2 _ _ (by decide) (by decide)).1,
   claim3_startGame.2.1 _ _ (by decide) (by decide),
   claim3_startGame.1 _ _ (by decide)⟩

/-- C5: on the duration-vote deadline in the `voting_duration` phase, zero
recorded votes abort the game back to idle with a failure report and no
default duration; otherwise `selectedDuration` is frozen to the plurality
winner and the session proceeds into `assignRoles`. -/
theorem claim5_finalizeDurationVote :
    (∀ (env : Env) (s : ManagerState), s.game.status = .votingDuration →
      s.game.durationVotes = [] →
      finalizeDurationVote env s =
        ({ s with game := resetGameState s.game }, [.noDurationVotes]) ∧
      (finalizeDurationVote env s).1.game.status = .idle ∧
      (finalizeDurationVote env s).1.game.selectedDuration = none) ∧
    (∀ (env : Env) (s : ManagerState) (w : GameDuration), s.game.status = .votingDuration →
      calculateWinningDuration s.game = some w →
      finalizeDurationVote env s =
        ((assignRoles env { s with game := { s.game with selectedDuration := some w } }).1,
          .durationSelected w ::
            (assignRoles env
              { s with game := { s.game with selectedDuration := some w } }).2)) := by
  constructor
  · intro env s hst hv
    have hcalc : calculateWinningDuration s.game = none := by
      unfold calculateWinningDuration
      rw [hv]
      rfl
    have heq : finalizeDurationVote env s =
        ({ s with game := resetGameState s.game }, [.noDurationVotes]) := by
      unfold finalizeDurationVote
      split
      · rename_i hc
        exact absurd hst hc
      · rw [hcalc]
    exact ⟨heq, by rw [heq]; rfl, by rw [heq]; rfl⟩
  · intro env s w hst hcalc
    unfold finalizeDurationVote
    split
    · rename_i hc
      exact absurd hst hc
    · rw [hcalc]

/-- Example collaborator environment used by witnesses. -/
def demoEnv : Env :=
  { members := [("a", "a"), ("b", "b"), ("c", "c")], botInboxId := "bot",
    imposterIndex := 0, word := "Pizza", dmOk := fun _ => true, speakerIndex := 0 }

/-- A session waiting on the duration poll with no votes. -/
def demoVotingDuration : ManagerState :=
  { initialManager "group" with
      game := { createGameState "group" with status := .votingDuration } }

/-- A session waiting on the duration poll with one vote for 7 minutes. -/
def demoVotingDurationVoted : ManagerState :=
  { initialManager "group" with
      game := { createGameState "group" with
                  status := .votingDuration,
                  durationVotes := [{ voterInboxId := "a", duration := .m7 }] } }

/-- `demoVotingDurationVoted` with the winning duration frozen. -/
def demoVotingDurationFrozen : ManagerState :=
  { initialManager "group" with
      game := { createGameState "group" with
                  status := .votingDuration,
                  durationVotes := [{ voterInboxId := "a", duration := .m7 }],
                  selectedDuration := some .m7 } }

/-- C5 witness: with one recorded duration vote the winner is frozen and
role assignment runs; with none the game aborts to idle. -/
theorem claim5_finalizeDurationVote_witness :
    (finalizeDurationVote demoEnv demoVotingDuration).1.game.status = .idle ∧
    (finalizeDurationVote demoEnv demoVotingDurationVoted).2
      = .durationSelected .m7 :: (assignRoles demoEnv demoVotingDurationFrozen).2 := by
  constructor
  · exact ((claim5_finalizeDurationVote.1 demoEnv demoVotingDuration
      (by decide) (by decide)).2).1
  · have h := claim5_finalizeDurationVote.2 demoEnv demoVotingDurationVoted .m7
      (by decide) (by decide)
    rw [h]
    rfl

/-- C10: when the plurality winner of the accusation votes is not a key of
`players` (arbitrary votee identifiers are accepted by `recordVote`),
`finalizeVoting` does not produce a results summary or a winner: it
reports an error, resets the session to idle, and never reaches the
`ended` phase. -/
theorem claim10_unknownVotee : ∀ (s : ManagerState) (w : String) (c : Nat),
    s.game.status = .voting →
    calculateVoteResults s.game = some (w, c) →
    jget s.game.players w = none →
    finalizeVoting s = ({ s with game := resetGameState s.game }, [.voteError]) ∧
    (finalizeVoting s).1.game.status = .idle ∧
    (finalizeVoting s).1.game.status ≠ .ended ∧
    (finalizeVoting s).1.game.winner = none := by
  intro s w c hst hcalc hget
  have heq : finalizeVoting s = ({ s with game := resetGameState s.game }, [.voteError]) := by
    unfold finalizeVoting
    split
    · rename_i hc
      exact absurd hst hc
    · rw [hcalc]
      dsimp only
      rw [show getPlayer s.game w = none from hget]
  refine ⟨heq, by rw [heq]; rfl, ?_, by rw [heq]; rfl⟩
  rw [heq]
  intro hc
  exact GameStatus.noConfusion hc

/-- C10 witness: a vote recorded through `handlePlayerVote` for the
unregistered identifier "ghost" makes `finalizeVoting` error out and
reset instead of ending the game. -/
theorem claim10_unknownVotee_witness :
    (finalizeVoting
        (handlePlayerVote
          { initialManager "group" with
              game := { createGameState "group" with status := .voting } }
          "voterA" "ghost")).1.game.status = .idle ∧
    (finalizeVoting
        (handlePlayerVote
          { initialManager "group" with
              game := { createGameState "group" with status := .voting } }
          "voterA" "ghost")).1.game.status ≠ .ended :=
  ⟨(claim10_unknownVotee _ "ghost" 1 (by decide) (by decide) (by decide)).2.1,
   (claim10_unknownVotee _ "ghost" 1 (by decide) (by decide) (by decide)).2.2.1⟩

/-- State for the C4 counterexample: in the voting phase exactly one
accusation was recorded, for the unregistered identifier "x". -/
def c4CounterState : ManagerState :=
  { initialManager "group" with
      game := { createGameState "group" with
                  status := .voting,
                  votes := [("v1", "x")] } }

/-- C4 counterexample: with at least one vote (for an identifier that is
not a registered player) `finalizeVoting` does not set the voted-out id,
the winner, or the `ended` phase; it errors and resets to idle. -/
theorem claim4_counterexample :
    c4CounterState.game.votes ≠ [] ∧
    (finalizeVoting c4CounterState).1.game.status = .idle ∧
    (finalizeVoting c4CounterState).1.game.status ≠ .ended ∧
    (finalizeVoting c4CounterState).1.game.votedOutInboxId = none ∧
    (finalizeVoting c4CounterState).1.game.winner = none ∧
    (finalizeVoting c4CounterState).2 = [.voteError] := by
  decide

/-- C4 (amended): on the voting deadline, zero recorded votes end the game
in a no-result draw and reset the session; at least one vote whose
plurality winner is a registered player sets `votedOutInboxId` to that
winner, sets `winner` to group exactly when the most-accused player is the
impostor, emits the results summary, sets the phase to `ended`, and
schedules the automatic reset 5 seconds later (so a status query
immediately afterwards still sees `ended`). -/
theorem claim4_finalizeVoting :
    (∀ s : ManagerState, s.game.status = .voting → s.game.votes = [] →
      finalizeVoting s = ({ s with game := resetGameState s.game }, [.noVotesDraw])) ∧
    (∀ (s : ManagerState) (w : String) (c : Nat), s.game.status = .voting →
      calculateVoteResults s.game = some (w, c) →
      jhas s.game.players w = true →
      (finalizeVoting s).1.game.votedOutInboxId = some w ∧
      (finalizeVoting s).1.game.winner =
        some (if s.game.imposterInboxId = some w then Winner.group else Winner.imposter) ∧
      (finalizeVoting s).2 = [.results w c s.game.imposterInboxId s.game.secretWord
        (determineWinner s.game w) s.game.votes] ∧
      (finalizeVoting s).1.game.status = .ended ∧
      (getGameStatus (finalizeVoting s).1).status = .ended ∧
      ({ id := s.nextId, callback := .resetAfterEnd, delay := 5000 } : Timeout)
        ∈ (finalizeVoting s).1.pending) := by
  constructor
  · intro s hst hv
    have hcalc : calculateVoteResults s.game = none := by
      unfold calculateVoteResults
      rw [hv]
      rfl
    unfold finalizeVoting
    split
    · rename_i hc
      exact absurd hst hc
    · rw [hcalc]
  · intro s w c hst hcalc hhas
    obtain ⟨p, hp⟩ := Option.isSome_iff_exists.mp hhas
    have heq : finalizeVoting s =
        (schedule { s with game := { s.game with
              votedOutInboxId := some w,
              winner := some (determineWinner s.game w),
              status := .ended } } .resetAfterEnd 5000,
          [.results w c s.game.imposterInboxId s.game.secretWord
            (determineWinner s.game w) s.game.votes]) := by
      unfold finalizeVoting
      split
      · rename_i hc
        exact absurd hst hc
      · rw [hcalc]
        dsimp only
        rw [show getPlayer s.game w = some p from hp]
    refine ⟨by rw [heq]; rfl, by rw [heq]; rfl, by rw [heq],
      by rw [heq]; rfl, by rw [heq]; rfl, ?_⟩
    rw [heq]
    exact List.mem_append.mpr (Or.inr (List.mem_singleton.mpr rfl))

/-- Voting-phase session with no recorded votes. -/
def c4DrawState : ManagerState :=
  { initialManager "group" with
      game := { createGameState "group" with status := .voting } }

/-- Voting-phase session with three registered players (impostor "A") and
votes `A→B, B→B, C→A`, so "B" is voted out with 2 votes. -/
def c4HappyState : ManagerState :=
  { initialManager "group" with
      game := { createGameState "group" with
                  status := .voting,
                  players := [("A", ⟨"A", "A", true, false, none⟩),
                              ("B", ⟨"B", "B", false, false, none⟩),
                              ("C", ⟨"C", "C", false, false, none⟩)],
                  imposterInboxId := some "A",
                  secretWord := some "Pizza",
                  votes := [("A", "B"), ("B", "B"), ("C", "A")] } }

/-- C4 witness: the amended claim evaluated on a concrete draw and on a
concrete completed vote. -/
theorem claim4_finalizeVoting_witness :
    finalizeVoting c4DrawState =
      ({ c4DrawState with game := resetGameState c4DrawState.game }, [.noVotesDraw]) ∧
    (finalizeVoting c4HappyState).1.game.votedOutInboxId = some "B" ∧
    (finalizeVoting c4HappyState).1.game.winner = some .imposter ∧
    (finalizeVoting c4HappyState).1.game.status = .ended := by
  refine ⟨claim4_finalizeVoting.1 c4DrawState (by decide) (by decide), ?_, ?_, ?_⟩
  · exact (claim4_finalizeVoting.2 c4HappyState "B" 2
      (by decide) (by decide) (by decide)).1
  · have h := (claim4_finalizeVoting.2 c4HappyState "B" 2
      (by decide) (by decide) (by decide)).2.1
    rw [h]
    decide
  · exact (claim4_finalizeVoting.2 c4HappyState "B" 2
      (by decide) (by decide) (by decide)).2.2.2.1

/-- C2: `cancelGame` on an idle or ended session reports "nothing to
cancel" and does not alter state; on an active session (whose stored
deadline handle was issued by the fresh-id counter) it returns the phase
to idle immediately, clears the stored deadline handle, and the cancelled
deadline's callback can never fire in any later run of the orchestrator. -/
theorem claim2_cancelGame :
    (∀ s : ManagerState, (s.game.status = .idle ∨ s.game.status = .ended) →
      cancelGame s = (s, [.noActiveGame])) ∧
    (∀ s : ManagerState, TimerBound s → isGameActive s.game = true →
      (cancelGame s).1.game.status = .idle ∧
      (cancelGame s).2 = [.gameCancelled] ∧
      (cancelGame s).1.timersEntry = none ∧
      (∀ tid, s.timersEntry = some tid →
        ∀ (ls : List Label) (s'' : ManagerState) (cb : Callback),
          Trace (cancelGame s).1 ls s'' → Label.fired tid cb ∉ ls)) := by
  constructor
  · intro s h
    have hact : isGameActive s.game = false := by
      rcases h with h | h <;> simp [isGameActive, h]
    unfold cancelGame
    rw [hact]
    rfl
  · intro s hb ha
    have hcg : cancelGame s =
        ({ clearTimer s with game := resetGameState (clearTimer s).game },
          [.gameCancelled]) := by
      unfold cancelGame
      rw [ha]
      rfl
    have hnext : (clearTimer s).nextId = s.nextId := by
      unfold clearTimer
      cases s.timersEntry <;> rfl
    refine ⟨by rw [hcg]; rfl, by rw [hcg], ?_, ?_⟩
    · rw [hcg]
      show (clearTimer s).timersEntry = none
      unfold clearTimer
      cases he : s.timersEntry with
      | none => exact he
      | some t => rfl
    · intro tid htid ls s'' cb htr
      have hpend : (clearTimer s).pending = s.pending.filter (fun x => x.id ≠ tid) := by
        unfold clearTimer
        rw [htid]
      have hav : avoid tid (cancelGame s).1 := by
        rw [hcg]
        refine ⟨?_, ?_⟩
        · show tid < (clearTimer s).nextId
          rw [hnext]
          exact hb tid htid
        · intro t ht
          have ht' : t ∈ s.pending.filter (fun x => x.id ≠ tid) := by
            rw [← hpend]
            exact ht
          have := List.of_mem_filter ht'
          simpa using this
      exact trace_no_dead_fire htr hav cb

/-- Active session with one armed deadline timeout (id 0). -/
def c2ActiveState : ManagerState :=
  { game := { createGameState "group" with status := .votingDuration },
    timersEntry := some 0,
    pending := [{ id := 0, callback := .finalizeDurationVote, delay := 60000 }],
    nextId := 1 }

/-- C2 witness: cancelling an idle session is a no-op report; cancelling
the active session returns the phase to idle, and the cancelled timeout
does not fire in a subsequent run. -/
theorem claim2_cancelGame_witness :
    cancelGame (initialManager "group") = (initialManager "group", [.noActiveGame]) ∧
    (cancelGame c2ActiveState).1.game.status = .idle ∧
    (∀ cb : Callback, Label.fired 0 cb ∉ [Label.cancelled]) := by
  have htb : TimerBound c2ActiveState := by
    intro tid h
    have h' : some 0 = some tid := h
    injection h' with h'
    show tid < 1
    omega
  refine ⟨claim2_cancelGame.1 _ (Or.inl rfl),
    (claim2_cancelGame.2 c2ActiveState htb (by decide)).1, ?_⟩
  intro cb
  exact (claim2_cancelGame.2 c2ActiveState htb (by decide)).2.2.2 0 rfl
    [Label.cancelled] _ cb (Trace.cons (Step.cancel _) (Trace.nil _))

/-- C8: the impostor invariant (the impostor id, when set, names a
registered player, that player's flag is set, and nobody else's is) is
preserved by every orchestrator operation — via the phase-indexed
strengthening `GoodState` — and therefore holds in every session state
reachable from a fresh manager. -/
theorem claim8_imposterInvariant :
    (∀ (s s' : ManagerState) (l : Label), GoodState s.game → Step s l s' →
      GoodState s'.game ∧ ImposterInv s'.game) ∧
    (∀ (groupId : String) (ls : List Label) (s : ManagerState),
      Trace (initialManager groupId) ls s → ImposterInv s.game) := by
  constructor
  · intro s s' l hg hstep
    have h := goodState_step hstep hg
    exact ⟨h, h.2⟩
  · intro groupId ls s htr
    exact (goodState_trace htr (goodState_create groupId)).2

/-- C8 witness: the invariant holds at the fresh manager and after one
concrete step. -/
theorem claim8_imposterInvariant_witness :
    ImposterInv (initialManager "group").game ∧
    ImposterInv (cancelGame (initialManager "group")).1.game := by
  refine ⟨claim8_imposterInvariant.2 "group" [] _ (Trace.nil _), ?_⟩
  exact (claim8_imposterInvariant.1 _ _ _ (goodState_create "group") (Step.cancel _)).2

theorem firstIdx_get? {α : Type} [DecidableEq α] {l : List α} {a : α} (h : a ∈ l) :
    l.get? (firstIdx l a) = some a := by
  induction l with
  | nil => cases h
  | cons b t ih =>
    by_cases hb : b = a
    · subst hb
      rw [firstIdx_cons_self]
      rfl
    · rw [firstIdx_cons_ne t a b hb]
      have ha : a ∈ t := by
        rcases List.mem_cons.mp h with h | h
        · exact absurd h.symm hb
        · exact h
      exact ih ha

theorem eq_of_firstIdx_eq {α : Type} [DecidableEq α] {l : List α} {a b : α}
    (ha : a ∈ l) (hb : b ∈ l) (h : firstIdx l a = firstIdx l b) : a = b := by
  have h1 := firstIdx_get? ha
  have h2 := firstIdx_get? hb
  rw [h] at h1
  rw [h1] at h2
  exact Option.some.inj h2

/-- Duration votes 5, 7, 5 (three distinct voters, arrival order). -/
def exampleDurVotes575 : GameState :=
  { createGameState "group" with
      status := .votingDuration,
      durationVotes := [{ voterInboxId := "A", duration := .m5 },
                        { voterInboxId := "B", duration := .m7 },
                        { voterInboxId := "C", duration := .m5 }] }

/-- Duration votes 7, 5 (two distinct voters, arrival order). -/
def exampleDurVotes75 : GameState :=
  { createGameState "group" with
      status := .votingDuration,
      durationVotes := [{ voterInboxId := "A", duration := .m7 },
                        { voterInboxId := "B", duration := .m5 }] }

/-- Voting-phase session where the single accusation names the empty
string. -/
def emptyIdVoteState : GameState :=
  { createGameState "group" with status := .voting, votes := [("v1", "")] }

/-- C1 counterexample: `calculateVoteResults` does not always return the
option with the highest vote count — when the highest-count votee
identifier is the empty string (falsy in JavaScript), it returns null
instead of that winner. -/
theorem claim1_counterexample :
    jvalues emptyIdVoteState.votes ≠ [] ∧
    (∀ b ∈ jvalues emptyIdVoteState.votes,
      countOcc (jvalues emptyIdVoteState.votes) b ≤
        countOcc (jvalues emptyIdVoteState.votes) "") ∧
    countOcc (jvalues emptyIdVoteState.votes) "" = 1 ∧
    calculateVoteResults emptyIdVoteState = none := by
  decide

/-- C1 (amended): `calculateWinningDuration` returns the duration with the
highest vote count, ties broken in favour of the duration whose vote
arrived earliest in submission order; `calculateVoteResults` follows the
identical policy whenever the winning identifier is nonempty (a falsy
empty-string winner yields null instead).  Concretely, duration votes
5, 7, 5 elect 5 and votes 7, 5 elect 7. -/
theorem claim1_plurality :
    (∀ s : GameState, s.durationVotes ≠ [] →
      ∃ d, calculateWinningDuration s = some d ∧
        d ∈ s.durationVotes.map DurationVote.duration ∧
        (∀ b ∈ s.durationVotes.map DurationVote.duration,
          countOcc (s.durationVotes.map DurationVote.duration) b ≤
            countOcc (s.durationVotes.map DurationVote.duration) d) ∧
        (∀ b ∈ s.durationVotes.map DurationVote.duration,
          countOcc (s.durationVotes.map DurationVote.duration) b =
            countOcc (s.durationVotes.map DurationVote.duration) d →
          firstIdx (s.durationVotes.map DurationVote.duration) d ≤
            firstIdx (s.durationVotes.map DurationVote.duration) b)) ∧
    (∀ (s : GameState) (w : String), w ≠ "" → w ∈ jvalues s.votes →
      (∀ b ∈ jvalues s.votes,
        countOcc (jvalues s.votes) b ≤ countOcc (jvalues s.votes) w) →
      (∀ b ∈ jvalues s.votes,
        countOcc (jvalues s.votes) b = countOcc (jvalues s.votes) w →
        firstIdx (jvalues s.votes) w ≤ firstIdx (jvalues s.votes) b) →
      calculateVoteResults s = some (w, countOcc (jvalues s.votes) w)) ∧
    calculateWinningDuration exampleDurVotes575 = some .m5 ∧
    calculateWinningDuration exampleDurVotes75 = some .m7 := by
  refine ⟨?_, ?_, by decide, by decide⟩
  · intro s hne
    have hlne : s.durationVotes.map DurationVote.duration ≠ [] := by
      intro h
      exact hne (List.map_eq_nil_iff.mp h)
    obtain ⟨k, hsel, hkl, hmax, htie⟩ :=
      selectMax_buildCounts_spec (s.durationVotes.map DurationVote.duration) hlne
    refine ⟨k, ?_, hkl, hmax, htie⟩
    have hie : s.durationVotes.isEmpty = false := by
      cases hd : s.durationVotes
      · exact absurd hd hne
      · rfl
    unfold calculateWinningDuration
    rw [if_neg (by simp [hie])]
    rw [hsel]
  · intro s w hw hmem hmax htie
    have hlne : jvalues s.votes ≠ [] := by
      intro h
      rw [h] at hmem
      cases hmem
    obtain ⟨k, hsel, hkl, hkmax, hktie⟩ := selectMax_buildCounts_spec (jvalues s.votes) hlne
    have hcount : countOcc (jvalues s.votes) k = countOcc (jvalues s.votes) w :=
      Nat.le_antisymm (hmax k hkl) (hkmax w hmem)
    have hidx : firstIdx (jvalues s.votes) k = firstIdx (jvalues s.votes) w :=
      Nat.le_antisymm (hktie w hmem hcount.symm) (htie k hkl hcount)
    have hkw : k = w := eq_of_firstIdx_eq hkl hmem hidx
    subst hkw
    have hie : s.votes.isEmpty = false := by
      cases hd : s.votes
      · rw [hd] at hlne
        exact absurd rfl hlne
      · rfl
    unfold calculateVoteResults
    rw [if_neg (by simp [hie])]
    dsimp only
    rw [hsel]
    dsimp only
    rw [if_neg hw]

/-- C1 witness: the tie-break theorem applied at the concrete seeds and at
a tied accusation vote. -/
theorem claim1_plurality_witness :
    (∃ d, calculateWinningDuration exampleDurVotes575 = some d) ∧
    calculateVoteResults
        { createGameState "group" with
            status := .voting,
            votes := [("v1", "B"), ("v2", "A"), ("v3", "A"), ("v4", "B")] } =
      some ("B", 2) := by
  constructor
  · obtain ⟨d, hd, _⟩ := claim1_plurality.1 exampleDurVotes575 (by decide)
    exact ⟨d, hd⟩
  · exact claim1_plurality.2.1 _ "B" (by decide) (by decide) (by decide) (by decide)

/-! ## The `TimerBound` hypothesis of the cancellation theorem holds in
every reachable manager state. -/

theorem timerBound_initial (groupId : String) : TimerBound (initialManager groupId) := by
  intro tid h
  cases h

theorem timerBound_setTimer {s : ManagerState} (cb : Callback) (d : Nat) :
    TimerBound (setTimer s cb d) := by
  intro tid h
  have h' : some s.nextId = some tid := h
  injection h' with h'
  show tid < s.nextId + 1
  omega

theorem timerBound_schedule {s : ManagerState} (h : TimerBound s) (cb : Callback) (d : Nat) :
    TimerBound (schedule s cb d) := by
  intro tid hte
  have hte' : s.timersEntry = some tid := hte
  show tid < s.nextId + 1
  have := h tid hte'
  omega

theorem timerBound_clearTimer {s : ManagerState} (h : TimerBound s) :
    TimerBound (clearTimer s) := by
  unfold clearTimer
  cases he : s.timersEntry with
  | none => exact h
  | some t =>
    intro tid hte
    cases hte

theorem timerBound_game {s : ManagerState} (h : TimerBound s) (g : GameState) :
    TimerBound { s with game := g } := h

theorem timerBound_startGame (env : Env) {s : ManagerState} (h : TimerBound s) :
    TimerBound (startGame env s).1 := by
  unfold startGame
  split
  · exact h
  · split
    · exact h
    · exact timerBound_setTimer _ _

theorem timerBound_handleDurationVote {s : ManagerState} (v : String) (d : GameDuration)
    (h : TimerBound s) : TimerBound (handleDurationVote s v d) := by
  unfold handleDurationVote
  split
  · exact h
  · exact timerBound_game h _

theorem timerBound_handlePlayerVote {s : ManagerState} (v w : String)
    (h : TimerBound s) : TimerBound (handlePlayerVote s v w) := by
  unfold handlePlayerVote
  split
  · exact h
  · exact timerBound_game h _

theorem timerBound_cancelGame {s : ManagerState} (h : TimerBound s) :
    TimerBound (cancelGame s).1 := by
  unfold cancelGame
  split
  · exact h
  · exact timerBound_game (timerBound_clearTimer h) _

theorem timerBound_assignRoles (env : Env) {s : ManagerState} (h : TimerBound s) :
    TimerBound (assignRoles env s).1 := by
  unfold assignRoles
  dsimp only
  split
  · exact timerBound_game h _
  · split
    · exact timerBound_game h _
    · exact timerBound_schedule (timerBound_game h _) _ _

theorem timerBound_finalizeDurationVote (env : Env) {s : ManagerState} (h : TimerBound s) :
    TimerBound (finalizeDurationVote env s).1 := by
  unfold finalizeDurationVote
  split
  · exact h
  · split
    · exact timerBound_game h _
    · exact timerBound_assignRoles env (timerBound_game h _)

theorem timerBound_startDiscussionPhase (now : Nat) {s : ManagerState} :
    TimerBound (startDiscussionPhase now s) := by
  unfold startDiscussionPhase
  exact timerBound_setTimer _ _

theorem timerBound_selectRandomSpeaker (env : Env) (now : Nat) {s : ManagerState}
    (h : TimerBound s) : TimerBound (selectRandomSpeaker env now s).1 := by
  unfold selectRandomSpeaker
  dsimp only
  split
  · exact h
  · exact timerBound_startDiscussionPhase now

theorem timerBound_startVotingPhase (now : Nat) {s : ManagerState} :
    TimerBound (startVotingPhase now s).1 := by
  unfold startVotingPhase
  exact timerBound_setTimer _ _

theorem timerBound_endDiscussionPhase (now : Nat) {s : ManagerState} (h : TimerBound s) :
    TimerBound (endDiscussionPhase now s).1 := by
  unfold endDiscussionPhase
  split
  · exact h
  · exact timerBound_startVotingPhase now

theorem timerBound_finalizeVoting {s : ManagerState} (h : TimerBound s) :
    TimerBound (finalizeVoting s).1 := by
  unfold finalizeVoting
  split
  · exact h
  · split
    · exact timerBound_game h _
    · split
      · exact timerBound_game h _
      · exact timerBound_schedule (timerBound_game h _) _ _

theorem timerBound_runCallback (env : Env) (now : Nat) (cb : Callback) {s : ManagerState}
    (h : TimerBound s) : TimerBound (runCallback env now cb s).1 := by
  cases cb with
  | finalizeDurationVote => exact timerBound_finalizeDurationVote env h
  | endDiscussion => exact timerBound_endDiscussionPhase now h
  | finalizeVoting => exact timerBound_finalizeVoting h
  | selectSpeaker => exact timerBound_selectRandomSpeaker env now h
  | resetAfterEnd => exact timerBound_game h _

theorem timerBound_fireTimeout (env : Env) (now : Nat) (t : Timeout) {s : ManagerState}
    (h : TimerBound s) : TimerBound (fireTimeout env now t s).1 := by
  unfold fireTimeout
  refine timerBound_runCallback env now _ ?_
  intro tid hte
  exact h tid hte

theorem timerBound_step {s s' : ManagerState} {l : Label} (hstep : Step s l s')
    (h : TimerBound s) : TimerBound s' := by
  cases hstep with
  | start env s => exact timerBound_startGame env h
  | durVote s v d => exact timerBound_handleDurationVote v d h
  | playerVote s v w => exact timerBound_handlePlayerVote v w h
  | cancel s => exact timerBound_cancelGame h
  | fire env now t s ht => exact timerBound_fireTimeout env now t h

theorem timerBound_trace {s s' : ManagerState} {ls : List Label}
    (htr : Trace s ls s') (h : TimerBound s) : TimerBound s' := by
  induction htr with
  | nil s => exact h
  | cons hstep _ ih => exact ih (timerBound_step hstep h)
